import Mathlib

/-!
# static-unity-lfs-bypasser: chunk store and reassembly cache

A shallow embedding of `src/lib/chunkManager.js` (`splitFile`, `combineChunks`) and of the
server generated by `src/bin/cli.js` (`combineChunks`, `getCachedFile`, the chunked-file
middleware), followed by theorems about them.

Modelling conventions.

* A byte is a `Fin 256`, a Node `Buffer` is a list of bytes.
* A file location is a `Path`: the directory it lives in and its entry name.  `path.join(dir, name)`
  for a separator-free `name`, `path.dirname` and `path.basename` are the constructor and the two
  projections.
* The file system is a partial map from locations to file contents.  A file is raw bytes, or the
  text produced by `JSON.stringify` for a manifest value, represented by the value it parses back
  to, or the text `null`.  Reading fails when the file is absent; writing fails when the
  environment refuses the location (missing directory, permissions, full disk).
* `JSON.parse` returns `null` or a value whose properties can be read; reading a property of
  `null` throws a `TypeError`.
* The environment `Env` collects what the program takes from outside the repository: the SHA-256
  hex digest, the bytes of a serialised manifest, the outcome of `JSON.parse` on raw bytes, and
  which locations can be written.
* JavaScript exceptions are the `error` results of `Except JsErr`.  Limits of the runtime (largest
  buffer, memory) are not modelled.
* `Date.now()` is read from the arguments `tLookup` and `tStore` of `getCachedFile`, one per call
  site; a request is its joined path and the base name of that path.
-/

namespace LfsBypasser

/-! ## Data model -/

abbrev Byte := Fin 256

abbrev Buffer := List Byte

/-- A file location: directory and entry name. -/
structure Path where
  dir : String
  base : String
deriving DecidableEq, Repr

/-- The exceptions the modelled code can raise. -/
inductive JsErr where
  | ENOENT
  | EWRITE
  | SyntaxError
  | TypeError
  | RangeError
  | HashMismatch
deriving DecidableEq, Repr

/-- Chunk descriptor as built by `splitFile` (`manifest.chunks.push(...)`). -/
structure Chunk where
  path : String
  start : Nat
  size : Nat
  hash : String
deriving DecidableEq, Repr

/-- Manifest object as built by `splitFile`. -/
structure Manifest where
  fileName : String
  originalSize : Nat
  chunks : List Chunk
  hash : String
deriving DecidableEq, Repr

/-- Chunk descriptor as it comes out of `JSON.parse`: any field may be absent (`undefined`). -/
structure ChunkJson where
  path : Option String
  start : Option Int
  size : Option Int
  hash : Option String
deriving DecidableEq, Repr

/-- Manifest as it comes out of `JSON.parse`: any field may be absent (`undefined`). -/
structure ManifestJson where
  fileName : Option String
  originalSize : Option Int
  chunks : Option (List ChunkJson)
  hash : Option String
deriving DecidableEq, Repr

/-- The JSON value of a chunk descriptor built by `splitFile`. -/
def Chunk.toJson (c : Chunk) : ChunkJson :=
  { path := some c.path, start := some (c.start : Int), size := some (c.size : Int),
    hash := some c.hash }

/-- The JSON value of a manifest built by `splitFile`. -/
def Manifest.toJson (m : Manifest) : ManifestJson :=
  { fileName := some m.fileName, originalSize := some (m.originalSize : Int),
    chunks := some (m.chunks.map Chunk.toJson), hash := some m.hash }

/-- A value `JSON.parse` returns, as the code uses it: `null`, or a value whose properties can be
read.  A number, string, boolean or array has none of the manifest's properties and is the object
with every field absent. -/
inductive JsonValue where
  | null
  | object (m : ManifestJson)
deriving DecidableEq, Repr

/-- Content of a file: raw bytes, the text `JSON.stringify` wrote for a manifest value, or the
text `null`. -/
inductive FileData where
  | raw (bytes : Buffer)
  | json (m : ManifestJson)
  | jsonNull
deriving DecidableEq, Repr

/-- The file system: a partial map from locations to contents. -/
abbrev FS := Path → Option FileData

/-- What the program takes from outside the repository. -/
structure Env where
  /-- The digest `crypto.createHash('sha256').update(b).digest('hex')`. -/
  sha256hex : Buffer → String
  /-- The bytes of the text `JSON.stringify(m, null, 2)`. -/
  jsonBytes : ManifestJson → Buffer
  /-- The outcome of `JSON.parse` on the text of a file of raw bytes (`none`: a `SyntaxError`). -/
  parseRaw : Buffer → Option JsonValue
  /-- Whether a write to this location succeeds. -/
  canWrite : Path → Bool

/-! ## Node library operations -/

/-- Node's `path.join(dir, name)` for an entry name. -/
def pathJoin (dir name : String) : Path := ⟨dir, name⟩

/-- The bytes a file holds. -/
def Env.bytes (E : Env) : FileData → Buffer
  | .raw b => b
  | .json m => E.jsonBytes m
  | .jsonNull => [110, 117, 108, 108]

/-- Node's `fs.existsSync(p)`. -/
def existsSync (fs : FS) (p : Path) : Bool := (fs p).isSome

/-- Node's `fs.readFileSync(p)`: the content as a buffer. -/
def readFileSync (E : Env) (fs : FS) (p : Path) : Except JsErr Buffer :=
  match fs p with
  | none => .error .ENOENT
  | some d => .ok (E.bytes d)

/-- Node's `fs.statSync(p).size`. -/
def statSize (E : Env) (fs : FS) (p : Path) : Except JsErr Nat :=
  match fs p with
  | none => .error .ENOENT
  | some d => .ok (E.bytes d).length

/-- The value `JSON.parse(fs.readFileSync(p, 'utf8'))`. -/
def parseJson (E : Env) (fs : FS) (p : Path) : Except JsErr JsonValue :=
  match fs p with
  | none => .error .ENOENT
  | some (.json m) => .ok (.object m)
  | some .jsonNull => .ok .null
  | some (.raw b) =>
    match E.parseRaw b with
    | none => .error .SyntaxError
    | some v => .ok v

/-- The manifest `combineChunks` works with: `JSON.parse(fs.readFileSync(p, 'utf8'))`, whose first
property access (`manifest.originalSize`) throws a `TypeError` when the value is `null`. -/
def readJson (E : Env) (fs : FS) (p : Path) : Except JsErr ManifestJson :=
  match parseJson E fs p with
  | .error e => .error e
  | .ok .null => .error .TypeError
  | .ok (.object m) => .ok m

/-- The file system after a successful write. -/
def FS.set (fs : FS) (p : Path) (d : FileData) : FS :=
  fun q => if q = p then some d else fs q

/-- Node's `fs.writeFileSync(p, d)`. -/
def writeFileSync (E : Env) (fs : FS) (p : Path) (d : FileData) : Except JsErr FS :=
  if E.canWrite p then .ok (fs.set p d) else .error .EWRITE

/-- Node's `buf.slice(start, end)` for non-negative bounds. -/
def bufSlice (buf : Buffer) (start stop : Nat) : Buffer := (buf.take stop).drop start

/-- Node's `Buffer.alloc(size)`: a zero-filled buffer; throws on `undefined` or a negative
size. -/
def bufferAlloc : Option Int → Except JsErr Buffer
  | none => .error .TypeError
  | some n => if n < 0 then .error .RangeError else .ok (List.replicate n.toNat 0)

/-- Node's `source.copy(target, targetStart)`: the target afterwards.  `undefined` counts as
`0`, a negative offset throws, and the copy is cut where the target ends. -/
def bufferCopy (source target : Buffer) (targetStart : Option Int) : Except JsErr Buffer :=
  let ts := targetStart.getD 0
  if ts < 0 then .error .RangeError
  else
    let t := ts.toNat
    .ok (target.take t ++ source.take (target.length - t) ++ target.drop (t + source.length))

/-! ## `src/lib/chunkManager.js` -/

/-- The constant `CHUNK_SIZE = 50 * 1024 * 1024` (50MB chunks).  It is kept folded in proofs. -/
@[irreducible] def CHUNK_SIZE : Nat := 50 * 1024 * 1024

/-- The template literal for a chunk's file name. -/
def chunkFileName (fileName : String) (i stop : Nat) : String :=
  fileName ++ ".chunk." ++ toString i ++ "-" ++ toString stop

/-- The template literal for the manifest's file name. -/
def manifestFileName (fileName : String) : String := fileName ++ ".manifest.json"

/-- The `for (let i = 0; i < fileSize; i += CHUNK_SIZE)` loop of `splitFile`, entered at `i` with
the chunks pushed so far: the chunk list (or the exception) and the file system it leaves. -/
def splitLoop (E : Env) (fileName chunksDir : String) (fileSize : Nat) (fileBuffer : Buffer)
    (i : Nat) (chunks : List Chunk) (fs : FS) : Except JsErr (List Chunk) × FS :=
  if i < fileSize then
    let chunk := bufSlice fileBuffer i (i + CHUNK_SIZE)
    let chunkHash := E.sha256hex chunk
    let name := chunkFileName fileName i (i + chunk.length)
    let chunkPath := pathJoin chunksDir name
    match writeFileSync E fs chunkPath (.raw chunk) with
    | .error e => (.error e, fs)
    | .ok fs1 =>
      splitLoop E fileName chunksDir fileSize fileBuffer (i + CHUNK_SIZE)
        (chunks ++ [{ path := name, start := i, size := chunk.length, hash := chunkHash }]) fs1
  else (.ok chunks, fs)
termination_by fileSize - i
decreasing_by
  have : 0 < CHUNK_SIZE := by unfold CHUNK_SIZE; omega
  omega

/-- The directory `splitFile` writes to: the argument, or `<dir of file>/../chunks` when the
argument is falsy (`undefined` or the empty string). -/
def effectiveChunksDir (filePath : Path) (chunksDir : Option String) : String :=
  match chunksDir with
  | none => filePath.dir ++ "/../chunks"
  | some d => if d = "" then filePath.dir ++ "/../chunks" else d

/-- The function `splitFile(filePath, chunksDir)`: the returned manifest (or the exception) and
the file system it leaves. -/
def splitFile (E : Env) (fs : FS) (filePath : Path) (chunksDir : Option String) :
    Except JsErr Manifest × FS :=
  let fileName := filePath.base
  match statSize E fs filePath with
  | .error e => (.error e, fs)
  | .ok fileSize =>
    match readFileSync E fs filePath with
    | .error e => (.error e, fs)
    | .ok fileBuffer =>
      let dir := effectiveChunksDir filePath chunksDir
      match splitLoop E fileName dir fileSize fileBuffer 0 [] fs with
      | (.error e, fs1) => (.error e, fs1)
      | (.ok chunks, fs1) =>
        let manifest : Manifest :=
          { fileName := fileName, originalSize := fileSize, chunks := chunks,
            hash := E.sha256hex fileBuffer }
        match writeFileSync E fs1 (pathJoin dir (manifestFileName fileName))
            (.json manifest.toJson) with
        | .error e => (.error e, fs1)
        | .ok fs2 => (.ok manifest, fs2)

/-- The `for (const chunk of manifest.chunks)` loop of `combineChunks`. -/
def combineLoop (E : Env) (fs : FS) (chunksDir : String) :
    List ChunkJson → Buffer → Except JsErr Buffer
  | [], combinedBuffer => .ok combinedBuffer
  | chunk :: rest, combinedBuffer =>
    match chunk.path with
    | none => .error .TypeError
    | some name =>
      match readFileSync E fs (pathJoin chunksDir name) with
      | .error e => .error e
      | .ok chunkData =>
        match bufferCopy chunkData combinedBuffer chunk.start with
        | .error e => .error e
        | .ok buf => combineLoop E fs chunksDir rest buf

/-- The buffer `combineChunks` has assembled when it reaches the hash check. -/
def assemble (E : Env) (fs : FS) (chunksDir : String) (manifest : ManifestJson) :
    Except JsErr Buffer :=
  match bufferAlloc manifest.originalSize with
  | .error e => .error e
  | .ok combinedBuffer =>
    match manifest.chunks with
    | none => .error .TypeError
    | some chunks => combineLoop E fs chunksDir chunks combinedBuffer

/-- The function `combineChunks(manifestPath)`, the same in the library and in the generated
server. -/
def combineChunks (E : Env) (fs : FS) (manifestPath : Path) : Except JsErr Buffer :=
  match readJson E fs manifestPath with
  | .error e => .error e
  | .ok manifest =>
    match assemble E fs manifestPath.dir manifest with
    | .error e => .error e
    | .ok combinedBuffer =>
      if some (E.sha256hex combinedBuffer) ≠ manifest.hash then .error .HashMismatch
      else .ok combinedBuffer

/-! ## The generated server (`generateServerCode` in `src/bin/cli.js`) -/

def CACHE_TIMEOUT : Int := 30 * 60 * 1000

/-- An entry of `fileCache`. -/
structure CacheEntry where
  buffer : Buffer
  timestamp : Int
deriving DecidableEq, Repr

/-- The `fileCache` map, keyed by manifest path. -/
abbrev FileCache := Path → Option CacheEntry

/-- The map after `fileCache.set(k, e)`. -/
def FileCache.set (c : FileCache) (k : Path) (e : CacheEntry) : FileCache :=
  fun q => if q = k then some e else c q

/-- What a call of `getCachedFile` leaves behind: the returned buffer or the exception, the cache
map, and (as a probe) how many times `combineChunks` was invoked. -/
structure CacheOutcome where
  result : Except JsErr Buffer
  fileCache : FileCache
  combineCalls : Nat

/-- The function `getCachedFile(manifestPath)`.  `tLookup` is the value of `Date.now()` in the
freshness test and `tStore` its value when the entry is stored. -/
def getCachedFile (E : Env) (fs : FS) (fileCache : FileCache) (tLookup tStore : Int)
    (manifestPath : Path) : CacheOutcome :=
  let miss : CacheOutcome :=
    match combineChunks E fs manifestPath with
    | .error e => { result := .error e, fileCache := fileCache, combineCalls := 1 }
    | .ok buffer =>
      { result := .ok buffer,
        fileCache := fileCache.set manifestPath { buffer := buffer, timestamp := tStore },
        combineCalls := 1 }
  match fileCache manifestPath with
  | none => miss
  | some cached =>
    if tLookup - cached.timestamp < CACHE_TIMEOUT then
      { result := .ok cached.buffer, fileCache := fileCache, combineCalls := 0 }
    else miss

/-- A request as the middleware sees it: `filePath = path.join(publicDir, req.url)` and
`path.basename(filePath)`. -/
structure Request where
  filePath : String
  baseName : String
deriving DecidableEq, Repr

/-- What the middleware did with a request: the content type set with `res.type`, the body sent
with `res.send`, and whether `next()` was called. -/
structure Response where
  contentType : Option String
  body : Option Buffer
  nextCalled : Bool
deriving DecidableEq, Repr

/-- The response of a request handed on untouched. -/
def passThrough : Response := { contentType := none, body := none, nextCalled := true }

/-- JavaScript's `s.endsWith(suffix)`: the characters of `suffix` end those of `s`. -/
def endsWith (s suffix : String) : Bool := suffix.data.isSuffixOf s.data

/-- The `res.type(...)` chosen from the extension of `filePath`. -/
def contentTypeFor (filePath : String) : Option String :=
  if endsWith filePath ".wasm" then some "application/wasm"
  else if endsWith filePath ".data" then some "application/octet-stream"
  else none

/-- The chunked-file middleware `app.use((req, res, next) => ...)`: what it does with the request
and the cache map it leaves.  Inside the `try`, `getCachedFile` and `JSON.parse` come before
`res.type`, and the log line that reads `manifest.originalSize` comes between `res.type` and
`res.send`: on a `null` manifest it throws after the content type is set.  Every exception ends
in the `catch`, which calls `next()`. -/
def chunkedMiddleware (E : Env) (fs : FS) (fileCache : FileCache) (tLookup tStore : Int)
    (chunksDir : String) (req : Request) : Response × FileCache :=
  let manifestPath := pathJoin chunksDir (manifestFileName req.baseName)
  if existsSync fs manifestPath then
    let out := getCachedFile E fs fileCache tLookup tStore manifestPath
    match out.result with
    | .error _ => (passThrough, out.fileCache)
    | .ok buffer =>
      match parseJson E fs manifestPath with
      | .error _ => (passThrough, out.fileCache)
      | .ok .null =>
        ({ contentType := contentTypeFor req.filePath, body := none, nextCalled := true },
          out.fileCache)
      | .ok (.object _) =>
        ({ contentType := contentTypeFor req.filePath, body := some buffer, nextCalled := false },
          out.fileCache)
  else (passThrough, fileCache)

/-! ## Specification-side definitions -/

/-- The number a list of decimal digit characters denotes. -/
def decVal (cs : List Char) : Nat := cs.foldl (fun acc c => 10 * acc + (c.toNat - 48)) 0

/-- The bytes of the window that starts at offset `i`. -/
def window (fileBuffer : Buffer) (i : Nat) : Buffer := bufSlice fileBuffer i (i + CHUNK_SIZE)

/-- The location of the chunk file for the window at offset `i`. -/
def chunkPathAt (fileName chunksDir : String) (fileBuffer : Buffer) (i : Nat) : Path :=
  pathJoin chunksDir (chunkFileName fileName i (i + (window fileBuffer i).length))

/-- The descriptor of the window at offset `i`. -/
def chunkAt (E : Env) (fileName : String) (fileBuffer : Buffer) (i : Nat) : Chunk :=
  { path := chunkFileName fileName i (i + (window fileBuffer i).length), start := i,
    size := (window fileBuffer i).length, hash := E.sha256hex (window fileBuffer i) }

/-- Number of windows of a file of `fileSize` bytes from offset `i` on. -/
@[irreducible] def windowCount (fileSize i : Nat) : Nat := (fileSize - i + (CHUNK_SIZE - 1)) / CHUNK_SIZE

/-- The offsets the loop of `splitFile` visits from `i` on. -/
def offsetsFrom (fileSize i : Nat) : List Nat := List.range' i (windowCount fileSize i) CHUNK_SIZE

/-- The file system after the chunk file of the window at offset `i` is written. -/
def writeWindow (fileName chunksDir : String) (fileBuffer : Buffer) (fs : FS) (i : Nat) : FS :=
  fs.set (chunkPathAt fileName chunksDir fileBuffer i) (.raw (window fileBuffer i))

/-- Chunk descriptors tile `[a, n)`: the first starts at `a`, each next one starts where the
previous one ends, every size is positive, and the last one ends at `n`. -/
def tilesFrom : Nat → List Chunk → Nat → Prop
  | a, [], n => a = n
  | a, c :: cs, n => c.start = a ∧ 0 < c.size ∧ tilesFrom (a + c.size) cs n

instance tilesFrom.decidable : ∀ (a : Nat) (cs : List Chunk) (n : Nat), Decidable (tilesFrom a cs n)
  | a, [], n => inferInstanceAs (Decidable (a = n))
  | a, c :: cs, n =>
    have := tilesFrom.decidable (a + c.size) cs n
    inferInstanceAs (Decidable (c.start = a ∧ 0 < c.size ∧ tilesFrom (a + c.size) cs n))

/-- An environment for examples: the digest lists the bytes, every write succeeds. -/
def exampleEnv : Env :=
  { sha256hex := fun b => toString (b.map Fin.val)
    jsonBytes := fun _ => []
    parseRaw := fun _ => none
    canWrite := fun _ => true }

/-- The manifest `splitFile` builds for a file named `fileName` that holds `fileBuffer`. -/
def manifestOf (E : Env) (fileName : String) (fileBuffer : Buffer) : Manifest :=
  { fileName := fileName, originalSize := fileBuffer.length,
    chunks := (offsetsFrom fileBuffer.length 0).map (chunkAt E fileName fileBuffer),
    hash := E.sha256hex fileBuffer }

/-- The location of the manifest file of `fileName`. -/
def manifestPathOf (chunksDir fileName : String) : Path :=
  pathJoin chunksDir (manifestFileName fileName)

/-- A store for examples: one three-byte file `public/game.data`. -/
def exampleFS : FS := fun p => if p = ⟨"public", "game.data"⟩ then some (.raw [1, 2, 3]) else none

/-- A manifest for examples with every field present, whose only chunk declares a `size` of 999
bytes at offset 0 although the manifest says the file has 3 bytes. -/
def looseManifest : ManifestJson :=
  { fileName := some "game.data", originalSize := some 3,
    chunks := some [{ path := some "part", start := some 0, size := some 999,
                      hash := some (exampleEnv.sha256hex [1, 2, 3]) }],
    hash := some (exampleEnv.sha256hex [1, 2, 3]) }

/-- A manifest for examples with consistent sizes that omits `fileName` and, in its only chunk,
`start`, `size` and `hash`. -/
def sparseManifest : ManifestJson :=
  { fileName := none, originalSize := some 3,
    chunks := some [{ path := some "part", start := none, size := none, hash := none }],
    hash := some (exampleEnv.sha256hex [1, 2, 3]) }

/-- A store for examples: `sparseManifest` and the three-byte chunk file it names. -/
def sparseStore : FS := fun p =>
  if p = ⟨"chunks", "game.data.manifest.json"⟩ then some (.json sparseManifest)
  else if p = ⟨"chunks", "part"⟩ then some (.raw [1, 2, 3])
  else none

/-- Sum of the `size` fields of the chunks of a manifest (an absent field counts as 0). -/
def ManifestJson.sizeSum (m : ManifestJson) : Int :=
  ((m.chunks.getD []).map (fun c => c.size.getD 0)).sum

/-- A chunk descriptor lacks one of its four fields. -/
def ChunkJson.missingField (c : ChunkJson) : Bool :=
  c.path.isNone || c.start.isNone || c.size.isNone || c.hash.isNone

/-- A manifest lacks a required field, its own or of one of its chunks. -/
def ManifestJson.missingField (m : ManifestJson) : Bool :=
  m.fileName.isNone || m.originalSize.isNone || m.hash.isNone || m.chunks.isNone ||
    (m.chunks.getD []).any ChunkJson.missingField

/-- A chunk of the manifest ends beyond `originalSize`. -/
def ManifestJson.chunkOverrun (m : ManifestJson) : Bool :=
  (m.chunks.getD []).any (fun c => decide (m.originalSize.getD 0 < c.start.getD 0 + c.size.getD 0))

/-- A store for examples: `looseManifest` and the three-byte chunk file it names. -/
def looseStore : FS := fun p =>
  if p = ⟨"chunks", "game.data.manifest.json"⟩ then some (.json looseManifest)
  else if p = ⟨"chunks", "part"⟩ then some (.raw [1, 2, 3])
  else none

/-- A file of 120 MB (125,829,120 zero bytes), kept folded. -/
@[irreducible] def bigFile : Buffer := List.replicate 125829120 0

/-- A store for examples in which every location holds `bigFile`. -/
def bigStore : FS := fun _ => some (.raw bigFile)

/-- A cache for examples: one entry for `chunks/game.data.manifest.json`, stored at time 1000. -/
def exampleCache : FileCache := fun p =>
  if p = ⟨"chunks", "game.data.manifest.json"⟩ then
    some { buffer := [1, 2, 3], timestamp := 1000 }
  else none

/-- A store for examples: `looseManifest` with a chunk file whose second byte was altered. -/
def brokenStore : FS := fun p =>
  if p = ⟨"chunks", "game.data.manifest.json"⟩ then some (.json looseManifest)
  else if p = ⟨"chunks", "part"⟩ then some (.raw [1, 9, 3])
  else none

/-- An environment for examples in which no write succeeds. -/
def readOnlyEnv : Env :=
  { sha256hex := exampleEnv.sha256hex
    jsonBytes := exampleEnv.jsonBytes
    parseRaw := exampleEnv.parseRaw
    canWrite := fun _ => false }

/-- A manifest for examples that omits `originalSize`. -/
def sizelessManifest : ManifestJson :=
  { fileName := some "game.data", originalSize := none, chunks := some [], hash := some "" }

/-- A store for examples in which every location holds `sizelessManifest`. -/
def sizelessStore : FS := fun _ => some (.json sizelessManifest)

/-- A store for examples in which the manifest file holds the text `null`. -/
def nullStore : FS := fun p =>
  if p = ⟨"chunks", "game.data.manifest.json"⟩ then some .jsonNull else none

/-- What `combineChunks` reads of a chunk: `path` and `start`, an absent `start` being 0. -/
def ChunkJson.readFields (c : ChunkJson) : Option String × Int := (c.path, c.start.getD 0)

/-! ## File names -/

theorem decVal_append_single (l : List Char) (c : Char) :
    decVal (l ++ [c]) = 10 * decVal l + (c.toNat - 48) := by
  simp [decVal, List.foldl_append]

theorem digitChar_val (k : Nat) (h : k < 10) :
    (Nat.digitChar k).toNat - 48 = k ∧ Nat.digitChar k ≠ '-' := by
  interval_cases k <;> decide

theorem toDigitsCore_spec (fuel : Nat) : ∀ (n : Nat) (ds : List Char), n < fuel →
    ∃ l, Nat.toDigitsCore 10 fuel n ds = l ++ ds ∧ decVal l = n ∧ ∀ c ∈ l, c ≠ '-' := by
  induction fuel with
  | zero => intro n ds h; omega
  | succ fuel ih =>
    intro n ds h
    have hd := digitChar_val (n % 10) (Nat.mod_lt _ (by decide))
    by_cases h0 : n / 10 = 0
    · refine ⟨[Nat.digitChar (n % 10)], ?_, ?_, ?_⟩
      · simp [Nat.toDigitsCore, h0]
      · have := decVal_append_single [] (Nat.digitChar (n % 10))
        simp only [List.nil_append] at this
        rw [this, hd.1]
        simp [decVal]
        omega
      · intro c hc
        simp only [List.mem_singleton] at hc
        rw [hc]; exact hd.2
    · obtain ⟨l, hl, hv, hc⟩ := ih (n / 10) (Nat.digitChar (n % 10) :: ds) (by omega)
      refine ⟨l ++ [Nat.digitChar (n % 10)], ?_, ?_, ?_⟩
      · simp [Nat.toDigitsCore, h0, hl]
      · rw [decVal_append_single, hv, hd.1]; omega
      · intro c hcm
        rcases List.mem_append.1 hcm with h1 | h1
        · exact hc c h1
        · simp only [List.mem_singleton] at h1
          rw [h1]; exact hd.2

theorem toString_data_spec (n : Nat) :
    decVal (toString n).data = n ∧ ∀ c ∈ (toString n).data, c ≠ '-' := by
  obtain ⟨l, hl, hv, hc⟩ := toDigitsCore_spec (n + 1) n [] (by omega)
  have : (toString n).data = l := by
    show (Nat.repr n).data = l
    simp [Nat.repr, Nat.toDigits, hl, List.asString]
  rw [this]; exact ⟨hv, hc⟩

theorem dash_split {a a2 b b2 : List Char} (ha : ∀ c ∈ a, c ≠ '-') (ha2 : ∀ c ∈ a2, c ≠ '-')
    (h : a ++ '-' :: b = a2 ++ '-' :: b2) : a = a2 := by
  induction a generalizing a2 with
  | nil =>
    cases a2 with
    | nil => rfl
    | cons x t =>
      simp only [List.nil_append, List.cons_append, List.cons.injEq] at h
      exact absurd h.1.symm (ha2 x (by simp))
  | cons y s ih =>
    cases a2 with
    | nil =>
      simp only [List.nil_append, List.cons_append, List.cons.injEq] at h
      exact absurd h.1 (ha y (by simp))
    | cons x t =>
      simp only [List.cons_append, List.cons.injEq] at h
      rw [h.1, ih (fun c hc => ha c (by simp [hc])) (fun c hc => ha2 c (by simp [hc])) h.2]

theorem chunkFileName_inj {f : String} {i e j e2 : Nat}
    (h : chunkFileName f i e = chunkFileName f j e2) : i = j := by
  have h1 := congrArg String.data h
  simp only [chunkFileName, String.data_append, List.append_assoc] at h1
  have h2 := List.append_cancel_left (List.append_cancel_left h1)
  have h3 : (toString i).data = (toString j).data :=
    dash_split (toString_data_spec i).2 (toString_data_spec j).2 h2
  have := (toString_data_spec i).1
  rw [h3, (toString_data_spec j).1] at this
  exact this.symm

theorem chunkFileName_ne_manifest (f : String) (i e : Nat) :
    chunkFileName f i e ≠ manifestFileName f := by
  intro h
  have h1 := congrArg String.data h
  simp only [chunkFileName, manifestFileName, String.data_append, List.append_assoc] at h1
  have h2 := List.append_cancel_left h1
  simp at h2

/-! ## The loop of `splitFile` -/

theorem CHUNK_SIZE_eq : CHUNK_SIZE = 52428800 := by unfold CHUNK_SIZE; rfl

theorem windowCount_eq_zero {n i : Nat} (h : n ≤ i) : windowCount n i = 0 := by
  simp only [windowCount, CHUNK_SIZE_eq]; omega

theorem windowCount_step {n i : Nat} (h : i < n) :
    windowCount n i = windowCount n (i + CHUNK_SIZE) + 1 := by
  simp only [windowCount, CHUNK_SIZE_eq]; omega

theorem offsetsFrom_done {n i : Nat} (h : n ≤ i) : offsetsFrom n i = [] := by
  simp [offsetsFrom, windowCount_eq_zero h]

theorem offsetsFrom_step {n i : Nat} (h : i < n) :
    offsetsFrom n i = i :: offsetsFrom n (i + CHUNK_SIZE) := by
  simp [offsetsFrom, windowCount_step h, List.range'_succ]

theorem window_length (buf : Buffer) (i : Nat) :
    (window buf i).length = min CHUNK_SIZE (buf.length - i) := by
  simp only [window, bufSlice, List.length_drop, List.length_take]; omega

theorem splitLoop_eq (E : Env) (f dir : String) (n : Nat) (buf : Buffer) (i : Nat)
    (acc : List Chunk) (fs : FS) :
    splitLoop E f dir n buf i acc fs =
      if i < n then
        if E.canWrite (chunkPathAt f dir buf i) then
          splitLoop E f dir n buf (i + CHUNK_SIZE) (acc ++ [chunkAt E f buf i])
            (writeWindow f dir buf fs i)
        else (.error .EWRITE, fs)
      else (.ok acc, fs) := by
  rw [splitLoop]
  simp only [writeFileSync, chunkPathAt, chunkAt, window, writeWindow]
  by_cases hi : i < n
  · simp only [hi, if_true]
    split <;> rename_i h <;> split at h <;> simp_all
  · simp only [hi, if_false]

theorem splitLoop_spec (E : Env) (f dir : String) (n : Nat) (buf : Buffer) :
    ∀ (k i : Nat) (acc : List Chunk) (fs : FS), windowCount n i = k →
      splitLoop E f dir n buf i acc fs =
        if (offsetsFrom n i).all (fun j => E.canWrite (chunkPathAt f dir buf j)) then
          (.ok (acc ++ (offsetsFrom n i).map (chunkAt E f buf)),
            (offsetsFrom n i).foldl (writeWindow f dir buf) fs)
        else
          (.error .EWRITE,
            ((offsetsFrom n i).takeWhile (fun j => E.canWrite (chunkPathAt f dir buf j))).foldl
              (writeWindow f dir buf) fs) := by
  intro k
  induction k with
  | zero =>
    intro i acc fs hk
    have hi : n ≤ i := by
      by_contra hlt
      have := windowCount_step (Nat.lt_of_not_le hlt)
      omega
    rw [splitLoop_eq, if_neg (by omega), offsetsFrom_done hi]
    simp
  | succ k ih =>
    intro i acc fs hk
    have hi : i < n := by
      by_contra hge
      have := windowCount_eq_zero (Nat.le_of_not_lt hge)
      omega
    have hk2 : windowCount n (i + CHUNK_SIZE) = k := by
      have := windowCount_step hi
      omega
    rw [splitLoop_eq, if_pos hi, offsetsFrom_step hi]
    by_cases hw : E.canWrite (chunkPathAt f dir buf i) = true
    · rw [if_pos hw, ih (i + CHUNK_SIZE) _ _ hk2]
      rw [List.all_cons, hw, Bool.true_and, List.takeWhile_cons, hw, List.map_cons,
        List.foldl_cons, if_pos rfl, List.foldl_cons, List.append_assoc, List.singleton_append]
    · rw [if_neg hw]
      have hw' : E.canWrite (chunkPathAt f dir buf i) = false := by simpa using hw
      rw [List.all_cons, hw', Bool.false_and, List.takeWhile_cons, hw']
      rfl


/-! ## `splitFile` as a whole -/

theorem writeFileSync_ok {E : Env} {p : Path} (fs : FS) (d : FileData)
    (h : E.canWrite p = true) : writeFileSync E fs p d = .ok (fs.set p d) := by
  unfold writeFileSync; rw [if_pos h]

theorem writeFileSync_err {E : Env} {p : Path} (fs : FS) (d : FileData)
    (h : ¬ E.canWrite p = true) : writeFileSync E fs p d = .error .EWRITE := by
  unfold writeFileSync; rw [if_neg h]

/-- With a readable source file, `splitFile` writes the chunk files in order, then the manifest
file, and stops at the first write that fails. -/
theorem splitFile_spec (E : Env) (fs : FS) (filePath : Path) (chunksDir : Option String)
    (d : FileData) (hsrc : fs filePath = some d) :
    splitFile E fs filePath chunksDir =
      if (offsetsFrom (E.bytes d).length 0).all (fun j => E.canWrite
          (chunkPathAt filePath.base (effectiveChunksDir filePath chunksDir) (E.bytes d) j)) then
        if E.canWrite (manifestPathOf (effectiveChunksDir filePath chunksDir) filePath.base) then
          (.ok (manifestOf E filePath.base (E.bytes d)),
            FS.set ((offsetsFrom (E.bytes d).length 0).foldl
                (writeWindow filePath.base (effectiveChunksDir filePath chunksDir) (E.bytes d)) fs)
              (manifestPathOf (effectiveChunksDir filePath chunksDir) filePath.base)
              (.json (manifestOf E filePath.base (E.bytes d)).toJson))
        else
          (.error .EWRITE, (offsetsFrom (E.bytes d).length 0).foldl
            (writeWindow filePath.base (effectiveChunksDir filePath chunksDir) (E.bytes d)) fs)
      else
        (.error .EWRITE,
          ((offsetsFrom (E.bytes d).length 0).takeWhile (fun j => E.canWrite
            (chunkPathAt filePath.base (effectiveChunksDir filePath chunksDir) (E.bytes d)
              j))).foldl
            (writeWindow filePath.base (effectiveChunksDir filePath chunksDir) (E.bytes d)) fs) := by
  unfold splitFile
  simp only [statSize, readFileSync, hsrc]
  rw [splitLoop_spec E _ _ _ _ _ 0 [] fs rfl]
  by_cases hall : (offsetsFrom (E.bytes d).length 0).all (fun j => E.canWrite
      (chunkPathAt filePath.base (effectiveChunksDir filePath chunksDir) (E.bytes d) j)) = true
  · rw [if_pos hall, if_pos hall]
    by_cases hm : E.canWrite (manifestPathOf (effectiveChunksDir filePath chunksDir)
        filePath.base) = true
    · rw [if_pos hm]
      dsimp only
      rw [writeFileSync_ok _ _ (show E.canWrite (pathJoin (effectiveChunksDir filePath chunksDir)
          (manifestFileName filePath.base)) = true from hm)]
      rw [List.nil_append]
      unfold manifestOf manifestPathOf
      rfl
    · rw [if_neg hm]
      dsimp only
      rw [writeFileSync_err _ _ (show ¬ E.canWrite (pathJoin (effectiveChunksDir filePath chunksDir)
          (manifestFileName filePath.base)) = true from hm)]
  · rw [if_neg hall, if_neg hall]


/-! ## Reading back what the loop wrote -/

theorem FS.set_same (fs : FS) (p : Path) (d : FileData) : (fs.set p d) p = some d := by
  unfold FS.set; rw [if_pos rfl]

theorem FS.set_other (fs : FS) {p q : Path} (d : FileData) (h : q ≠ p) :
    (fs.set p d) q = fs q := by
  unfold FS.set; rw [if_neg h]

theorem chunkPathAt_inj {f dir : String} {buf : Buffer} {i j : Nat}
    (h : chunkPathAt f dir buf i = chunkPathAt f dir buf j) : i = j := by
  unfold chunkPathAt pathJoin at h
  exact chunkFileName_inj (Path.mk.inj h).2

theorem chunkPathAt_ne_manifest (f dir : String) (buf : Buffer) (i : Nat) :
    chunkPathAt f dir buf i ≠ manifestPathOf dir f := by
  unfold chunkPathAt manifestPathOf pathJoin
  intro h
  exact chunkFileName_ne_manifest f _ _ (Path.mk.inj h).2

/-- Writing windows leaves every location that is not one of their chunk files as it was. -/
theorem foldl_writeWindow_other (f dir : String) (buf : Buffer) (q : Path) :
    ∀ (l : List Nat) (fs : FS), (∀ j ∈ l, q ≠ chunkPathAt f dir buf j) →
      (l.foldl (writeWindow f dir buf) fs) q = fs q := by
  intro l
  induction l with
  | nil => intro fs _; rfl
  | cons a t ih =>
    intro fs h
    rw [List.foldl_cons, ih _ (fun j hj => h j (List.mem_cons_of_mem _ hj))]
    unfold writeWindow
    exact FS.set_other _ _ (h a (List.mem_cons_self _ _))

/-- After the windows of `l` are written, the chunk file of each holds that window. -/
theorem foldl_writeWindow_mem (f dir : String) (buf : Buffer) :
    ∀ (l : List Nat) (fs : FS) (i : Nat), i ∈ l →
      (l.foldl (writeWindow f dir buf) fs) (chunkPathAt f dir buf i) =
        some (.raw (window buf i)) := by
  intro l
  induction l with
  | nil => intro fs i h; exact absurd h (List.not_mem_nil _)
  | cons a t ih =>
    intro fs i h
    rw [List.foldl_cons]
    by_cases hit : i ∈ t
    · exact ih _ i hit
    · have hia : i = a := by
        rcases List.mem_cons.1 h with h1 | h1
        · exact h1
        · exact absurd h1 hit
      subst hia
      rw [foldl_writeWindow_other f dir buf _ t _ (fun j hj hEq => hit (by
        rw [chunkPathAt_inj hEq]; exact hj))]
      unfold writeWindow
      exact FS.set_same _ _ _


/-! ## Reassembly of what `splitFile` wrote -/

theorem bufferCopy_nat (source target : Buffer) (i : Nat) :
    bufferCopy source target (some (i : Int)) =
      .ok (target.take i ++ source.take (target.length - i) ++
        target.drop (i + source.length)) := by
  unfold bufferCopy
  have h : ¬ ((i : Int) < 0) := by omega
  simp only [Option.getD_some, h, if_false, Int.toNat_ofNat]

theorem drop_append_len {l Z : Buffer} {i k : Nat} (h : l.length = i) :
    (l ++ Z).drop (i + k) = Z.drop k := by
  subst h; exact List.drop_append _

theorem take_append_window (buf : Buffer) (i : Nat) :
    buf.take i ++ window buf i = buf.take (i + CHUNK_SIZE) := by
  unfold window bufSlice
  have h : buf.take i = (buf.take (i + CHUNK_SIZE)).take i := by
    rw [List.take_take, Nat.min_eq_left (Nat.le_add_right _ _)]
  rw [h, List.take_append_drop]

/-- One pass of the copy loop extends the correct prefix of the buffer by one window. -/
theorem copy_window_step (buf Z : Buffer) (i : Nat) (hi : i < buf.length)
    (hlen : (buf.take i ++ Z).length = buf.length) :
    bufferCopy (window buf i) (buf.take i ++ Z) (some (i : Int)) =
      .ok (buf.take (i + CHUNK_SIZE) ++ Z.drop (window buf i).length) := by
  have hti : (buf.take i).length = i := by
    rw [List.length_take]; omega
  have hw := window_length buf i
  rw [bufferCopy_nat]
  have h1 : (buf.take i ++ Z).take i = buf.take i := by
    exact List.take_left' hti
  have h2 : (window buf i).take ((buf.take i ++ Z).length - i) = window buf i := by
    apply List.take_of_length_le
    rw [hlen, hw]; omega
  have h3 : (buf.take i ++ Z).drop (i + (window buf i).length) =
      Z.drop (window buf i).length := by
    exact drop_append_len hti
  rw [h1, h2, h3, take_append_window]


theorem combineLoop_cons_chunk (E : Env) (fs : FS) (dir f : String) (buf : Buffer) (i : Nat)
    (rest : List ChunkJson) (B : Buffer) :
    combineLoop E fs dir ((chunkAt E f buf i).toJson :: rest) B =
      match readFileSync E fs (chunkPathAt f dir buf i) with
      | .error e => .error e
      | .ok chunkData =>
        match bufferCopy chunkData B (some (i : Int)) with
        | .error e => .error e
        | .ok b => combineLoop E fs dir rest b := by
  rw [combineLoop]
  rfl

theorem readFileSync_raw {E : Env} {fs : FS} {p : Path} {b : Buffer}
    (h : fs p = some (.raw b)) : readFileSync E fs p = .ok b := by
  unfold readFileSync; rw [h]; rfl

/-- The copy loop over the descriptors of `buf` rebuilds whatever buffer `buf2` of the same length
the chunk files hold the windows of. -/
theorem combineLoop_windows (E : Env) (fs : FS) (dir f : String) (buf buf2 : Buffer)
    (hlen : buf2.length = buf.length) :
    ∀ (k i : Nat) (Z : Buffer), windowCount buf.length i = k →
      (buf2.take i ++ Z).length = buf.length →
      (∀ j ∈ offsetsFrom buf.length i,
        fs (chunkPathAt f dir buf j) = some (.raw (window buf2 j))) →
      combineLoop E fs dir ((offsetsFrom buf.length i).map (fun j => (chunkAt E f buf j).toJson))
        (buf2.take i ++ Z) = .ok buf2 := by
  intro k
  induction k with
  | zero =>
    intro i Z hk hZ _
    have hi : buf.length ≤ i := by
      by_contra hlt
      have := windowCount_step (Nat.lt_of_not_le hlt)
      omega
    rw [offsetsFrom_done hi, List.map_nil, combineLoop]
    have ht : buf2.take i = buf2 := List.take_of_length_le (by omega)
    rw [ht] at hZ ⊢
    have hz : Z = [] := by
      apply List.eq_nil_of_length_eq_zero
      rw [List.length_append] at hZ; omega
    rw [hz, List.append_nil]
  | succ k ih =>
    intro i Z hk hZ hfs
    have hi : i < buf.length := by
      by_contra hge
      have := windowCount_eq_zero (Nat.le_of_not_lt hge)
      omega
    have hk2 : windowCount buf.length (i + CHUNK_SIZE) = k := by
      have := windowCount_step hi
      omega
    have hZ2 : (buf2.take i ++ Z).length = buf2.length := by rw [hZ, hlen]
    rw [offsetsFrom_step hi, List.map_cons, combineLoop_cons_chunk,
      readFileSync_raw (hfs i (by rw [offsetsFrom_step hi]; exact List.mem_cons_self _ _))]
    dsimp only
    rw [copy_window_step buf2 Z i (by omega) hZ2]
    dsimp only
    apply ih (i + CHUNK_SIZE) _ hk2
    · have hw := window_length buf2 i
      rw [List.length_append, List.length_take] at hZ
      rw [List.length_append, List.length_take, List.length_drop, hw]
      omega
    · intro j hj
      exact hfs j (by rw [offsetsFrom_step hi]; exact List.mem_cons_of_mem _ hj)


theorem readJson_json {E : Env} {fs : FS} {p : Path} {m : ManifestJson}
    (h : fs p = some (.json m)) : readJson E fs p = .ok m := by
  unfold readJson parseJson; rw [h]

theorem bufferAlloc_nat (n : Nat) : bufferAlloc (some (n : Int)) = .ok (List.replicate n 0) := by
  have h : ¬ ((n : Int) < 0) := by omega
  show (if (n : Int) < 0 then Except.error JsErr.RangeError
    else Except.ok (List.replicate (n : Int).toNat 0)) = _
  rw [if_neg h, Int.toNat_ofNat]

theorem combineChunks_of_assemble {E : Env} {fs : FS} {p : Path} {m : ManifestJson}
    {b : Buffer} (h : readJson E fs p = .ok m) (h2 : assemble E fs p.dir m = .ok b) :
    combineChunks E fs p =
      if some (E.sha256hex b) ≠ m.hash then .error .HashMismatch else .ok b := by
  unfold combineChunks
  rw [h]
  show (match assemble E fs p.dir m with
    | Except.error e => (Except.error e : Except JsErr Buffer)
    | Except.ok combinedBuffer =>
      if some (E.sha256hex combinedBuffer) ≠ m.hash then Except.error JsErr.HashMismatch
      else Except.ok combinedBuffer) = _
  rw [h2]

/-- On a store that holds the manifest of `buf` and, in the chunk files it names, the windows of
a buffer `buf2` of the same length, `combineChunks` returns `buf2` when its digest is the
manifest's and fails with the integrity error otherwise. -/
theorem combineChunks_of_store (E : Env) (fs : FS) (dir f : String) (buf buf2 : Buffer)
    (hlen : buf2.length = buf.length)
    (hman : fs (manifestPathOf dir f) = some (.json (manifestOf E f buf).toJson))
    (hchunks : ∀ j ∈ offsetsFrom buf.length 0,
      fs (chunkPathAt f dir buf j) = some (.raw (window buf2 j))) :
    combineChunks E fs (manifestPathOf dir f) =
      if E.sha256hex buf2 = E.sha256hex buf then .ok buf2 else .error .HashMismatch := by
  have hloop := combineLoop_windows E fs dir f buf buf2 hlen _ 0 (List.replicate buf.length 0) rfl
    (by rw [List.take_zero, List.nil_append, List.length_replicate]) hchunks
  rw [List.take_zero, List.nil_append] at hloop
  have hasm : assemble E fs (manifestPathOf dir f).dir (manifestOf E f buf).toJson = .ok buf2 := by
    unfold assemble
    show (match bufferAlloc (some ((buf.length : Nat) : Int)) with
      | Except.error e => (Except.error e : Except JsErr Buffer)
      | Except.ok combinedBuffer =>
        match some (((offsetsFrom buf.length 0).map (chunkAt E f buf)).map Chunk.toJson) with
        | none => Except.error JsErr.TypeError
        | some chunks => combineLoop E fs dir chunks combinedBuffer) = Except.ok buf2
    rw [bufferAlloc_nat, List.map_map]
    exact hloop
  rw [combineChunks_of_assemble (readJson_json hman) hasm]
  have hh : (manifestOf E f buf).toJson.hash = some (E.sha256hex buf) := rfl
  rw [hh]
  by_cases h : E.sha256hex buf2 = E.sha256hex buf
  · rw [if_pos h, if_neg (by rw [h]; exact fun hn => hn rfl)]
  · rw [if_neg h, if_pos (fun hs => h (Option.some.inj hs))]


/-! ## Claims about `splitFile` followed by `combineChunks` -/

/-- After a successful `splitFile` the store holds the manifest and every window. -/
theorem splitFile_store (E : Env) (fs : FS) (filePath : Path) (chunksDir : Option String)
    (d : FileData) (hsrc : fs filePath = some d)
    (hw : ∀ p : Path, p.dir = effectiveChunksDir filePath chunksDir → E.canWrite p = true) :
    (splitFile E fs filePath chunksDir).1 = .ok (manifestOf E filePath.base (E.bytes d)) ∧
    (splitFile E fs filePath chunksDir).2
        (manifestPathOf (effectiveChunksDir filePath chunksDir) filePath.base) =
      some (.json (manifestOf E filePath.base (E.bytes d)).toJson) ∧
    ∀ j ∈ offsetsFrom (E.bytes d).length 0,
      (splitFile E fs filePath chunksDir).2
          (chunkPathAt filePath.base (effectiveChunksDir filePath chunksDir) (E.bytes d) j) =
        some (.raw (window (E.bytes d) j)) := by
  have hall : (offsetsFrom (E.bytes d).length 0).all (fun j => E.canWrite
      (chunkPathAt filePath.base (effectiveChunksDir filePath chunksDir) (E.bytes d) j)) = true := by
    rw [List.all_eq_true]
    intro j _
    exact hw _ rfl
  have hm : E.canWrite (manifestPathOf (effectiveChunksDir filePath chunksDir) filePath.base)
      = true := hw _ rfl
  rw [splitFile_spec E fs filePath chunksDir d hsrc, if_pos hall, if_pos hm]
  refine ⟨rfl, FS.set_same _ _ _, ?_⟩
  intro j hj
  show (FS.set _ _ _) _ = _
  rw [FS.set_other _ _ (chunkPathAt_ne_manifest _ _ _ _)]
  exact foldl_writeWindow_mem _ _ _ _ _ _ hj

/-- C1 (round trip).  For every store in which the source file exists, whatever its content
(empty, exactly one chunk, or not a multiple of the chunk size), and every chunk directory whose
files can be written, `splitFile` succeeds and `combineChunks` on the manifest file it wrote returns
exactly the bytes of the source file. -/
theorem splitFile_combineChunks_roundtrip (E : Env) (fs : FS) (filePath : Path)
    (chunksDir : Option String) (d : FileData) (hsrc : fs filePath = some d)
    (hw : ∀ p : Path, p.dir = effectiveChunksDir filePath chunksDir → E.canWrite p = true) :
    (∃ m, (splitFile E fs filePath chunksDir).1 = .ok m) ∧
    combineChunks E (splitFile E fs filePath chunksDir).2
        (pathJoin (effectiveChunksDir filePath chunksDir) (manifestFileName filePath.base)) =
      .ok (E.bytes d) := by
  obtain ⟨h1, h2, h3⟩ := splitFile_store E fs filePath chunksDir d hsrc hw
  refine ⟨⟨_, h1⟩, ?_⟩
  have h := combineChunks_of_store E (splitFile E fs filePath chunksDir).2
    (effectiveChunksDir filePath chunksDir) filePath.base (E.bytes d) (E.bytes d) rfl h2 h3
  rw [if_pos rfl] at h
  exact h

theorem splitFile_combineChunks_roundtrip_example :
    (∃ m, (splitFile exampleEnv exampleFS ⟨"public", "game.data"⟩ (some "chunks")).1 = .ok m) ∧
    combineChunks exampleEnv
        (splitFile exampleEnv exampleFS ⟨"public", "game.data"⟩ (some "chunks")).2
        (pathJoin "chunks" "game.data.manifest.json") = .ok [1, 2, 3] :=
  splitFile_combineChunks_roundtrip exampleEnv exampleFS ⟨"public", "game.data"⟩ (some "chunks")
    (.raw [1, 2, 3]) rfl (fun _ _ => rfl)


/-! ## The integrity gate of `combineChunks` -/

theorem bufferCopy_length {source target b : Buffer} {ts : Option Int}
    (h : bufferCopy source target ts = .ok b) : b.length = target.length := by
  unfold bufferCopy at h
  by_cases hneg : ts.getD 0 < 0
  · rw [if_pos hneg] at h; cases h
  · rw [if_neg hneg] at h
    have hb := Except.ok.inj h
    rw [← hb, List.length_append, List.length_append, List.length_take, List.length_take,
      List.length_drop]
    omega

theorem combineLoop_length (E : Env) (fs : FS) (dir : String) :
    ∀ (chunks : List ChunkJson) (B b : Buffer),
      combineLoop E fs dir chunks B = .ok b → b.length = B.length := by
  intro chunks
  induction chunks with
  | nil =>
    intro B b h
    rw [combineLoop] at h
    rw [Except.ok.inj h]
  | cons c rest ih =>
    intro B b h
    rw [combineLoop] at h
    cases hp : c.path with
    | none => rw [hp] at h; cases h
    | some name =>
      rw [hp] at h
      dsimp only at h
      cases hr : readFileSync E fs (pathJoin dir name) with
      | error e => rw [hr] at h; cases h
      | ok chunkData =>
        rw [hr] at h
        dsimp only at h
        cases hc : bufferCopy chunkData B c.start with
        | error e => rw [hc] at h; cases h
        | ok b1 =>
          rw [hc] at h
          dsimp only at h
          rw [ih b1 b h, bufferCopy_length hc]

theorem assemble_length {E : Env} {fs : FS} {dir : String} {m : ManifestJson} {b : Buffer}
    (h : assemble E fs dir m = .ok b) : m.originalSize = some (b.length : Int) := by
  unfold assemble at h
  cases hs : m.originalSize with
  | none => rw [hs] at h; cases h
  | some n =>
    rw [hs] at h
    by_cases hneg : n < 0
    · have h0 : bufferAlloc (some n) = .error .RangeError := by
        show (if n < 0 then Except.error JsErr.RangeError
          else Except.ok (List.replicate n.toNat 0)) = _
        rw [if_pos hneg]
      rw [h0] at h; cases h
    · have h0 : bufferAlloc (some n) = .ok (List.replicate n.toNat 0) := by
        show (if n < 0 then Except.error JsErr.RangeError
          else Except.ok (List.replicate n.toNat 0)) = _
        rw [if_neg hneg]
      rw [h0] at h
      cases hc : m.chunks with
      | none => rw [hc] at h; cases h
      | some chunks =>
        rw [hc] at h
        have hl := combineLoop_length E fs dir chunks _ b h
        rw [List.length_replicate] at hl
        rw [hl]
        congr 1
        omega

/-- What a successful `combineChunks` went through. -/
theorem combineChunks_ok_inv {E : Env} {fs : FS} {p : Path} {b : Buffer}
    (h : combineChunks E fs p = .ok b) :
    ∃ m, readJson E fs p = .ok m ∧ assemble E fs p.dir m = .ok b ∧
      m.hash = some (E.sha256hex b) := by
  cases hr : readJson E fs p with
  | error e =>
    unfold combineChunks at h
    rw [hr] at h; cases h
  | ok m =>
    cases ha : assemble E fs p.dir m with
    | error e =>
      unfold combineChunks at h
      rw [hr] at h
      change (match assemble E fs p.dir m with
        | Except.error e => (Except.error e : Except JsErr Buffer)
        | Except.ok combinedBuffer =>
          if some (E.sha256hex combinedBuffer) ≠ m.hash then Except.error JsErr.HashMismatch
          else Except.ok combinedBuffer) = _ at h
      rw [ha] at h; cases h
    | ok b1 =>
      rw [combineChunks_of_assemble hr ha] at h
      by_cases hh : some (E.sha256hex b1) ≠ m.hash
      · rw [if_pos hh] at h; cases h
      · rw [if_neg hh] at h
        have hb := Except.ok.inj h
        subst hb
        exact ⟨m, rfl, ha, (not_not.1 hh).symm⟩


/-- C2 (integrity gate).  Whenever the manifest parses and all its chunks are read and placed, so
that `combineChunks` reaches the hash check with an assembled buffer `b`: it returns a buffer
exactly when the digest of `b` is `manifest.hash`; on a mismatch it fails with the integrity error;
and the only buffer it can return is `b`, whose length is `manifest.originalSize` and whose digest is
`manifest.hash`. -/
theorem combineChunks_integrity_gate (E : Env) (fs : FS) (manifestPath : Path)
    (manifest : ManifestJson) (b : Buffer) (hm : readJson E fs manifestPath = .ok manifest)
    (ha : assemble E fs manifestPath.dir manifest = .ok b) :
    ((∃ r, combineChunks E fs manifestPath = .ok r) ↔ some (E.sha256hex b) = manifest.hash) ∧
    (some (E.sha256hex b) ≠ manifest.hash →
      combineChunks E fs manifestPath = .error .HashMismatch) ∧
    (∀ r, combineChunks E fs manifestPath = .ok r →
      r = b ∧ manifest.originalSize = some (r.length : Int) ∧
        manifest.hash = some (E.sha256hex r)) := by
  have hc := combineChunks_of_assemble hm ha
  by_cases hh : some (E.sha256hex b) ≠ manifest.hash
  · rw [if_pos hh] at hc
    refine ⟨⟨?_, fun h => absurd h hh⟩, fun _ => hc, ?_⟩
    · rintro ⟨r, hr⟩
      rw [hc] at hr; cases hr
    · intro r hr
      rw [hc] at hr; cases hr
  · rw [if_neg hh] at hc
    have heq : some (E.sha256hex b) = manifest.hash := not_not.1 hh
    refine ⟨⟨fun _ => heq, fun _ => ⟨b, hc⟩⟩, fun h => absurd heq h, ?_⟩
    intro r hr
    rw [hc] at hr
    have hrb : b = r := Except.ok.inj hr
    subst hrb
    exact ⟨rfl, assemble_length ha, heq.symm⟩

theorem combineChunks_integrity_gate_example :
    ((∃ r, combineChunks exampleEnv looseStore ⟨"chunks", "game.data.manifest.json"⟩ = .ok r) ↔
      some (exampleEnv.sha256hex [1, 2, 3]) = looseManifest.hash) ∧
    (some (exampleEnv.sha256hex [1, 2, 3]) ≠ looseManifest.hash →
      combineChunks exampleEnv looseStore ⟨"chunks", "game.data.manifest.json"⟩ =
        .error .HashMismatch) ∧
    (∀ r, combineChunks exampleEnv looseStore ⟨"chunks", "game.data.manifest.json"⟩ = .ok r →
      r = [1, 2, 3] ∧ looseManifest.originalSize = some (r.length : Int) ∧
        looseManifest.hash = some (exampleEnv.sha256hex r)) :=
  combineChunks_integrity_gate exampleEnv looseStore ⟨"chunks", "game.data.manifest.json"⟩
    looseManifest [1, 2, 3] rfl rfl


/-! ## Tampering with one chunk file -/

theorem window_set (buf : Buffer) (p i : Nat) (v : Byte) :
    window (buf.set p v) i =
      if p < i then window buf i else (window buf i).set (p - i) v := by
  unfold window bufSlice
  rw [List.set_take, List.drop_set]

theorem mem_offsetsFrom_zero {n i : Nat} (h : i ∈ offsetsFrom n 0) :
    i < n ∧ ∃ t, i = CHUNK_SIZE * t := by
  unfold offsetsFrom at h
  obtain ⟨t, ht, hi⟩ := List.mem_range'.1 h
  rw [Nat.zero_add] at hi
  refine ⟨?_, t, hi⟩
  have hc : windowCount n 0 = (n - 0 + (CHUNK_SIZE - 1)) / CHUNK_SIZE := by
    unfold windowCount; rfl
  rw [hc, CHUNK_SIZE_eq] at ht
  rw [CHUNK_SIZE_eq] at hi
  omega

/-- Changing a byte inside the window at `j` changes that window and no other one. -/
theorem window_set_at (buf : Buffer) (v : Byte) {i j k : Nat}
    (hi : i ∈ offsetsFrom buf.length 0) (hj : j ∈ offsetsFrom buf.length 0)
    (hk : k < (window buf j).length) :
    window (buf.set (j + k) v) i = if i = j then (window buf j).set k v else window buf i := by
  obtain ⟨hin, a, ha⟩ := mem_offsetsFrom_zero hi
  obtain ⟨hjn, b, hb⟩ := mem_offsetsFrom_zero hj
  have hwj := window_length buf j
  have hwi := window_length buf i
  rw [window_set]
  by_cases hij : i = j
  · subst hij
    rw [if_pos rfl, if_neg (by omega), Nat.add_sub_cancel_left]
  · rw [if_neg hij]
    by_cases hlt : j + k < i
    · rw [if_pos hlt]
    · rw [if_neg hlt]
      apply List.set_eq_of_length_le
      rw [CHUNK_SIZE_eq] at ha hb hwj hwi
      omega


theorem mem_manifestOf_chunks {E : Env} {f : String} {buf : Buffer} {c : Chunk}
    (h : c ∈ (manifestOf E f buf).chunks) :
    ∃ j ∈ offsetsFrom buf.length 0, c = chunkAt E f buf j := by
  unfold manifestOf at h
  obtain ⟨j, hj, hc⟩ := List.mem_map.1 h
  exact ⟨j, hj, hc.symm⟩

/-- C3 (tamper detection), for a digest that tells the altered content from the original.  After a
successful `splitFile`, overwrite one byte (offset `k`) of the chunk file of any descriptor `c` of
the manifest with `v`.  If the digest of the file content with that byte changed differs from the
digest of the original content, `combineChunks` on the produced manifest fails with the integrity
error, so it returns no buffer. -/
theorem tamper_detected (E : Env) (fs : FS) (filePath : Path) (chunksDir : Option String)
    (d : FileData) (hsrc : fs filePath = some d)
    (hw : ∀ p : Path, p.dir = effectiveChunksDir filePath chunksDir → E.canWrite p = true)
    (c : Chunk) (hc : c ∈ (manifestOf E filePath.base (E.bytes d)).chunks)
    (k : Nat) (hk : k < c.size) (v : Byte)
    (hdigest : E.sha256hex ((E.bytes d).set (c.start + k) v) ≠ E.sha256hex (E.bytes d)) :
    (splitFile E fs filePath chunksDir).1 = .ok (manifestOf E filePath.base (E.bytes d)) ∧
    (splitFile E fs filePath chunksDir).2
        (pathJoin (effectiveChunksDir filePath chunksDir) c.path) =
      some (.raw (window (E.bytes d) c.start)) ∧
    combineChunks E
        (FS.set (splitFile E fs filePath chunksDir).2
          (pathJoin (effectiveChunksDir filePath chunksDir) c.path)
          (.raw ((window (E.bytes d) c.start).set k v)))
        (pathJoin (effectiveChunksDir filePath chunksDir) (manifestFileName filePath.base)) =
      .error .HashMismatch := by
  obtain ⟨h1, h2, h3⟩ := splitFile_store E fs filePath chunksDir d hsrc hw
  obtain ⟨j, hj, hcj⟩ := mem_manifestOf_chunks hc
  subst hcj
  have hk2 : k < (window (E.bytes d) j).length := hk
  have hpath : pathJoin (effectiveChunksDir filePath chunksDir)
      (chunkAt E filePath.base (E.bytes d) j).path =
      chunkPathAt filePath.base (effectiveChunksDir filePath chunksDir) (E.bytes d) j := rfl
  have hstart : (chunkAt E filePath.base (E.bytes d) j).start = j := rfl
  rw [hstart] at hdigest
  rw [hpath, hstart]
  refine ⟨h1, h3 j hj, ?_⟩
  have h := combineChunks_of_store E
    (FS.set (splitFile E fs filePath chunksDir).2
      (chunkPathAt filePath.base (effectiveChunksDir filePath chunksDir) (E.bytes d) j)
      (.raw ((window (E.bytes d) j).set k v)))
    (effectiveChunksDir filePath chunksDir) filePath.base (E.bytes d)
    ((E.bytes d).set (j + k) v) (List.length_set _ _ _)
    (by
      rw [FS.set_other _ _ (Ne.symm (chunkPathAt_ne_manifest _ _ _ _))]
      exact h2)
    (by
      intro i hi
      rw [window_set_at (E.bytes d) v hi hj hk2]
      by_cases hij : i = j
      · subst hij
        rw [if_pos rfl]
        exact FS.set_same _ _ _
      · rw [if_neg hij, FS.set_other _ _ (fun hp => hij (chunkPathAt_inj hp))]
        exact h3 i hi)
  rw [if_neg hdigest] at h
  exact h

theorem tamper_detected_example :
    (splitFile exampleEnv exampleFS ⟨"public", "game.data"⟩ (some "chunks")).1 =
      .ok (manifestOf exampleEnv "game.data" [1, 2, 3]) ∧
    (splitFile exampleEnv exampleFS ⟨"public", "game.data"⟩ (some "chunks")).2
        (pathJoin "chunks" (chunkAt exampleEnv "game.data" [1, 2, 3] 0).path) =
      some (.raw (window [1, 2, 3] 0)) ∧
    combineChunks exampleEnv
        (FS.set (splitFile exampleEnv exampleFS ⟨"public", "game.data"⟩ (some "chunks")).2
          (pathJoin "chunks" (chunkAt exampleEnv "game.data" [1, 2, 3] 0).path)
          (.raw ((window [1, 2, 3] 0).set 1 9)))
        (pathJoin "chunks" "game.data.manifest.json") = .error .HashMismatch :=
  tamper_detected exampleEnv exampleFS ⟨"public", "game.data"⟩ (some "chunks") (.raw [1, 2, 3])
    rfl (fun _ _ => rfl) (chunkAt exampleEnv "game.data" [1, 2, 3] 0)
    (List.mem_map.2 ⟨0, by
      rw [show (exampleEnv.bytes (.raw [1, 2, 3])).length = 3 from rfl,
        offsetsFrom_step (by decide)]
      exact List.mem_cons_self _ _, rfl⟩)
    1 (by
      show 1 < (window [1, 2, 3] 0).length
      rw [window_length, CHUNK_SIZE_eq]
      decide) 9 (by decide)


/-! ## The manifest `splitFile` returns -/

/-- A manifest returned by `splitFile` is the manifest of the bytes of the source file. -/
theorem splitFile_ok_inv {E : Env} {fs : FS} {filePath : Path} {chunksDir : Option String}
    {m : Manifest} (h : (splitFile E fs filePath chunksDir).1 = .ok m) :
    ∃ d, fs filePath = some d ∧ m = manifestOf E filePath.base (E.bytes d) := by
  cases hsrc : fs filePath with
  | none =>
    have h0 : splitFile E fs filePath chunksDir = (.error .ENOENT, fs) := by
      unfold splitFile statSize
      rw [hsrc]
    rw [h0] at h; cases h
  | some d =>
    refine ⟨d, rfl, ?_⟩
    rw [splitFile_spec E fs filePath chunksDir d hsrc] at h
    split at h
    · split at h
      · exact (Except.ok.inj h).symm
      · cases h
    · cases h

theorem range'_eq_map_range (step : Nat) : ∀ (k s : Nat),
    List.range' s k step = (List.range k).map (fun i => s + step * i) := by
  intro k
  induction k with
  | zero => intro s; rfl
  | succ k ih =>
    intro s
    rw [List.range'_concat, List.range_succ, List.map_append, ih s]
    rfl

theorem windowCount_zero (n : Nat) : windowCount n 0 = (n + (CHUNK_SIZE - 1)) / CHUNK_SIZE := by
  unfold windowCount; rfl

/-- Offsets and sizes of the descriptors of a manifest built by `splitFile`. -/
theorem manifestOf_layout (E : Env) (f : String) (buf : Buffer) :
    (manifestOf E f buf).chunks.map (fun c => (c.start, c.size)) =
      (List.range ((buf.length + (CHUNK_SIZE - 1)) / CHUNK_SIZE)).map
        (fun i => (i * CHUNK_SIZE, min CHUNK_SIZE (buf.length - i * CHUNK_SIZE))) := by
  unfold manifestOf offsetsFrom
  rw [windowCount_zero, range'_eq_map_range, List.map_map, List.map_map]
  apply List.map_congr_left
  intro i _
  show ((0 + CHUNK_SIZE * i), (window buf (0 + CHUNK_SIZE * i)).length) = _
  rw [window_length, Nat.zero_add, Nat.mul_comm]

theorem tilesFrom_nil (a n : Nat) : tilesFrom a [] n ↔ a = n := Iff.rfl

theorem tilesFrom_cons (a n : Nat) (c : Chunk) (cs : List Chunk) :
    tilesFrom a (c :: cs) n ↔ c.start = a ∧ 0 < c.size ∧ tilesFrom (a + c.size) cs n := Iff.rfl

theorem tilesFrom_offsets (E : Env) (f : String) (buf : Buffer) :
    ∀ (k i : Nat), windowCount buf.length i = k → i ≤ buf.length →
      tilesFrom i ((offsetsFrom buf.length i).map (chunkAt E f buf)) buf.length := by
  intro k
  induction k with
  | zero =>
    intro i hk hi
    have hge : buf.length ≤ i := by
      by_contra hlt
      have := windowCount_step (Nat.lt_of_not_le hlt)
      omega
    rw [offsetsFrom_done hge, List.map_nil, tilesFrom_nil]
    exact Nat.le_antisymm hi hge
  | succ k ih =>
    intro i hk hi
    have hlt : i < buf.length := by
      by_contra hge
      have := windowCount_eq_zero (Nat.le_of_not_lt hge)
      omega
    have hk2 : windowCount buf.length (i + CHUNK_SIZE) = k := by
      have := windowCount_step hlt
      omega
    have hw := window_length buf i
    have hpos : 0 < CHUNK_SIZE := by rw [CHUNK_SIZE_eq]; decide
    have hstart : (chunkAt E f buf i).start = i := rfl
    have hsize : (chunkAt E f buf i).size = (window buf i).length := rfl
    rw [offsetsFrom_step hlt, List.map_cons, tilesFrom_cons, hstart, hsize]
    refine ⟨rfl, by omega, ?_⟩
    by_cases hfit : i + CHUNK_SIZE ≤ buf.length
    · rw [hw, Nat.min_eq_left (by omega)]
      exact ih _ hk2 hfit
    · rw [hw, Nat.min_eq_right (by omega), offsetsFrom_done (by omega), List.map_nil,
        tilesFrom_nil]
      omega

theorem tilesFrom_sum : ∀ (cs : List Chunk) (a n : Nat), tilesFrom a cs n →
    a + (cs.map Chunk.size).sum = n ∧ ∀ c ∈ cs, a ≤ c.start ∧ c.start + c.size ≤ n := by
  intro cs
  induction cs with
  | nil =>
    intro a n h
    rw [tilesFrom_nil] at h
    exact ⟨h, fun c hc => absurd hc (List.not_mem_nil _)⟩
  | cons c rest ih =>
    intro a n h
    rw [tilesFrom_cons] at h
    obtain ⟨hs, hp, ht⟩ := h
    obtain ⟨hsum, hall⟩ := ih _ _ ht
    refine ⟨?_, ?_⟩
    · rw [List.map_cons, List.sum_cons]; omega
    · intro x hx
      rcases List.mem_cons.1 hx with hxc | hxr
      · subst hxc
        have : a + x.size + (rest.map Chunk.size).sum = n := hsum
        omega
      · have := hall x hxr
        omega


theorem tilesFrom_sorted : ∀ (cs : List Chunk) (a n : Nat), tilesFrom a cs n →
    cs.Pairwise (fun x y => x.start < y.start) := by
  intro cs
  induction cs with
  | nil => intro a n _; exact List.Pairwise.nil
  | cons c rest ih =>
    intro a n h
    rw [tilesFrom_cons] at h
    obtain ⟨hs, hp, ht⟩ := h
    refine List.Pairwise.cons ?_ (ih _ _ ht)
    intro y hy
    have := ((tilesFrom_sum rest _ _ ht).2 y hy).1
    omega

/-- C4 (tiling invariant).  In every manifest returned by `splitFile` the chunk descriptors, in the
order of the list, tile `[0, originalSize)`: the first starts at 0, each next one starts where the
previous one ends, every size is positive and the last one ends at `originalSize`.  So the starts
are ascending, the sizes sum to `originalSize`, and every chunk has
`start + size <= originalSize`. -/
theorem splitFile_tiling (E : Env) (fs : FS) (filePath : Path) (chunksDir : Option String)
    (m : Manifest) (h : (splitFile E fs filePath chunksDir).1 = .ok m) :
    tilesFrom 0 m.chunks m.originalSize ∧
    m.chunks.Pairwise (fun x y => x.start < y.start) ∧
    (m.chunks.map Chunk.size).sum = m.originalSize ∧
    ∀ c ∈ m.chunks, c.start + c.size ≤ m.originalSize := by
  obtain ⟨d, _, hm⟩ := splitFile_ok_inv h
  have ht : tilesFrom 0 m.chunks m.originalSize := by
    rw [hm]
    exact tilesFrom_offsets E filePath.base (E.bytes d) _ 0 rfl (Nat.zero_le _)
  obtain ⟨hsum, hall⟩ := tilesFrom_sum _ _ _ ht
  refine ⟨ht, tilesFrom_sorted _ _ _ ht, ?_, fun c hc => (hall c hc).2⟩
  omega

theorem splitFile_tiling_example :
    tilesFrom 0 (manifestOf exampleEnv "game.data" [1, 2, 3]).chunks
      (manifestOf exampleEnv "game.data" [1, 2, 3]).originalSize ∧
    (manifestOf exampleEnv "game.data" [1, 2, 3]).chunks.Pairwise
      (fun x y => x.start < y.start) ∧
    ((manifestOf exampleEnv "game.data" [1, 2, 3]).chunks.map Chunk.size).sum =
      (manifestOf exampleEnv "game.data" [1, 2, 3]).originalSize ∧
    ∀ c ∈ (manifestOf exampleEnv "game.data" [1, 2, 3]).chunks,
      c.start + c.size ≤ (manifestOf exampleEnv "game.data" [1, 2, 3]).originalSize :=
  splitFile_tiling exampleEnv exampleFS ⟨"public", "game.data"⟩ (some "chunks")
    (manifestOf exampleEnv "game.data" [1, 2, 3])
    (splitFile_store exampleEnv exampleFS ⟨"public", "game.data"⟩ (some "chunks")
      (.raw [1, 2, 3]) rfl (fun _ _ => rfl)).1


theorem bigFile_length : bigFile.length = 125829120 := by
  unfold bigFile
  exact List.length_replicate _ _

/-- C5 (chunk count and sizes).  For a readable source file of `n` bytes and a writable chunk
directory, `splitFile` returns a manifest with `originalSize = n` and exactly
`(n + (CHUNK_SIZE - 1)) / CHUNK_SIZE`, that is `ceil(n / CHUNK_SIZE)`, chunks, where
`CHUNK_SIZE = 50 * 1024 * 1024`; chunk `i` has start `i * CHUNK_SIZE` and size
`min CHUNK_SIZE (n - i * CHUNK_SIZE)`.  An empty file gives an empty chunk list, and the last
chunk is smaller than `CHUNK_SIZE` exactly when `n` is not a multiple of `CHUNK_SIZE`. -/
theorem splitFile_chunk_layout (E : Env) (fs : FS) (filePath : Path) (chunksDir : Option String)
    (d : FileData) (hsrc : fs filePath = some d)
    (hw : ∀ p : Path, p.dir = effectiveChunksDir filePath chunksDir → E.canWrite p = true) :
    CHUNK_SIZE = 50 * 1024 * 1024 ∧
    ∃ m, (splitFile E fs filePath chunksDir).1 = .ok m ∧
      m.originalSize = (E.bytes d).length ∧
      m.chunks.length = ((E.bytes d).length + (CHUNK_SIZE - 1)) / CHUNK_SIZE ∧
      m.chunks.map (fun c => (c.start, c.size)) =
        (List.range (((E.bytes d).length + (CHUNK_SIZE - 1)) / CHUNK_SIZE)).map
          (fun i => (i * CHUNK_SIZE, min CHUNK_SIZE ((E.bytes d).length - i * CHUNK_SIZE))) ∧
      ((E.bytes d).length = 0 → m.chunks = []) ∧
      ∀ c, m.chunks.getLast? = some c →
        (c.size < CHUNK_SIZE ↔ ¬ CHUNK_SIZE ∣ (E.bytes d).length) := by
  refine ⟨by unfold CHUNK_SIZE; rfl, manifestOf E filePath.base (E.bytes d),
    (splitFile_store E fs filePath chunksDir d hsrc hw).1, rfl, ?_, ?_, ?_, ?_⟩
  · have h := congrArg List.length (manifestOf_layout E filePath.base (E.bytes d))
    rw [List.length_map, List.length_map, List.length_range] at h
    exact h
  · exact manifestOf_layout E filePath.base (E.bytes d)
  · intro h0
    have h := congrArg List.length (manifestOf_layout E filePath.base (E.bytes d))
    rw [List.length_map, List.length_map, List.length_range, h0, CHUNK_SIZE_eq] at h
    exact List.eq_nil_of_length_eq_zero (by omega)
  · intro c hc
    have h := congrArg List.getLast? (manifestOf_layout E filePath.base (E.bytes d))
    rw [List.getLast?_map, List.getLast?_map, hc, List.getLast?_range] at h
    by_cases hz : ((E.bytes d).length + (CHUNK_SIZE - 1)) / CHUNK_SIZE = 0
    · rw [if_pos hz] at h; cases h
    · rw [if_neg hz] at h
      have hsz := congrArg Prod.snd (Option.some.inj h)
      have hsz2 : c.size = min CHUNK_SIZE ((E.bytes d).length -
          (((E.bytes d).length + (CHUNK_SIZE - 1)) / CHUNK_SIZE - 1) * CHUNK_SIZE) := hsz
      rw [Nat.dvd_iff_mod_eq_zero, hsz2]
      rw [CHUNK_SIZE_eq] at hz ⊢
      omega

theorem splitFile_chunk_layout_example :
    ∃ m, (splitFile exampleEnv bigStore ⟨"public", "big.data"⟩ (some "chunks")).1 = .ok m ∧
      m.originalSize = 125829120 ∧
      m.chunks.map (fun c => (c.start, c.size)) =
        [(0, 52428800), (52428800, 52428800), (104857600, 20971520)] := by
  obtain ⟨_, m, h1, h2, _, h4, _, _⟩ :=
    splitFile_chunk_layout exampleEnv bigStore ⟨"public", "big.data"⟩ (some "chunks")
      (.raw bigFile) rfl (fun _ _ => rfl)
  have hlen : (exampleEnv.bytes (.raw bigFile)).length = 125829120 := bigFile_length
  rw [hlen] at h2 h4
  rw [CHUNK_SIZE_eq] at h4
  refine ⟨m, h1, h2, ?_⟩
  rw [h4]
  decide


/-! ## The reassembly cache -/

theorem getCachedFile_hit {E : Env} {fs : FS} {fileCache : FileCache} {tLookup tStore : Int}
    {manifestPath : Path} {cached : CacheEntry} (hc : fileCache manifestPath = some cached)
    (hfresh : tLookup - cached.timestamp < CACHE_TIMEOUT) :
    getCachedFile E fs fileCache tLookup tStore manifestPath =
      { result := .ok cached.buffer, fileCache := fileCache, combineCalls := 0 } := by
  unfold getCachedFile
  simp only [hc, hfresh, if_true]

theorem getCachedFile_miss {E : Env} {fs : FS} {fileCache : FileCache} {tLookup tStore : Int}
    {manifestPath : Path}
    (hmiss : fileCache manifestPath = none ∨ ∃ cached, fileCache manifestPath = some cached ∧
      ¬ tLookup - cached.timestamp < CACHE_TIMEOUT) :
    getCachedFile E fs fileCache tLookup tStore manifestPath =
      match combineChunks E fs manifestPath with
      | .error e => { result := .error e, fileCache := fileCache, combineCalls := 1 }
      | .ok buffer =>
        { result := .ok buffer,
          fileCache := fileCache.set manifestPath { buffer := buffer, timestamp := tStore },
          combineCalls := 1 } := by
  unfold getCachedFile
  rcases hmiss with h | ⟨cached, h, hold⟩
  · simp only [h]
  · simp only [h, hold, if_false]

/-- C7 (cache-through).  With `CACHE_TIMEOUT = 30 * 60 * 1000` ms: when `fileCache` holds an entry
for `manifestPath` and `tLookup - entry.timestamp < CACHE_TIMEOUT`, `getCachedFile` returns
`entry.buffer`, does not invoke `combineChunks` and leaves the map as it was.  Otherwise (no entry,
or an entry that is `CACHE_TIMEOUT` old or older) it invokes `combineChunks` once and, when that
returns `buffer`, returns it and stores `{buffer, timestamp}` under `manifestPath`, the timestamp
being the clock reading when the entry is stored, leaving every other key as it was. -/
theorem getCachedFile_cache_through (E : Env) (fs : FS) (fileCache : FileCache)
    (tLookup tStore : Int) (manifestPath : Path) :
    CACHE_TIMEOUT = 30 * 60 * 1000 ∧
    (∀ cached, fileCache manifestPath = some cached →
      tLookup - cached.timestamp < CACHE_TIMEOUT →
        (getCachedFile E fs fileCache tLookup tStore manifestPath).result = .ok cached.buffer ∧
        (getCachedFile E fs fileCache tLookup tStore manifestPath).combineCalls = 0 ∧
        (getCachedFile E fs fileCache tLookup tStore manifestPath).fileCache = fileCache) ∧
    ((fileCache manifestPath = none ∨ ∃ cached, fileCache manifestPath = some cached ∧
        CACHE_TIMEOUT ≤ tLookup - cached.timestamp) →
      (getCachedFile E fs fileCache tLookup tStore manifestPath).combineCalls = 1 ∧
      ∀ buffer, combineChunks E fs manifestPath = .ok buffer →
        (getCachedFile E fs fileCache tLookup tStore manifestPath).result = .ok buffer ∧
        (getCachedFile E fs fileCache tLookup tStore manifestPath).fileCache manifestPath =
          some { buffer := buffer, timestamp := tStore } ∧
        ∀ q, q ≠ manifestPath →
          (getCachedFile E fs fileCache tLookup tStore manifestPath).fileCache q =
            fileCache q) := by
  refine ⟨rfl, ?_, ?_⟩
  · intro cached hc hfresh
    rw [getCachedFile_hit hc hfresh]
    exact ⟨rfl, rfl, rfl⟩
  · intro hmiss
    have hmiss2 : fileCache manifestPath = none ∨ ∃ cached,
        fileCache manifestPath = some cached ∧ ¬ tLookup - cached.timestamp < CACHE_TIMEOUT := by
      rcases hmiss with h | ⟨cached, h, hold⟩
      · exact Or.inl h
      · exact Or.inr ⟨cached, h, by omega⟩
    rw [getCachedFile_miss hmiss2]
    refine ⟨?_, ?_⟩
    · cases combineChunks E fs manifestPath <;> rfl
    · intro buffer hb
      rw [hb]
      refine ⟨rfl, ?_, ?_⟩
      · show (FileCache.set _ _ _) _ = _
        unfold FileCache.set
        rw [if_pos rfl]
      · intro q hq
        show (FileCache.set _ _ _) _ = _
        unfold FileCache.set
        rw [if_neg hq]

theorem getCachedFile_cache_through_example :
    ((getCachedFile exampleEnv looseStore exampleCache 2000 2000
          ⟨"chunks", "game.data.manifest.json"⟩).result = .ok [1, 2, 3] ∧
      (getCachedFile exampleEnv looseStore exampleCache 2000 2000
          ⟨"chunks", "game.data.manifest.json"⟩).combineCalls = 0 ∧
      (getCachedFile exampleEnv looseStore exampleCache 2000 2000
          ⟨"chunks", "game.data.manifest.json"⟩).fileCache = exampleCache) ∧
    ((getCachedFile exampleEnv looseStore exampleCache 1801000 1801005
          ⟨"chunks", "game.data.manifest.json"⟩).combineCalls = 1 ∧
      (getCachedFile exampleEnv looseStore exampleCache 1801000 1801005
          ⟨"chunks", "game.data.manifest.json"⟩).result = .ok [1, 2, 3] ∧
      (getCachedFile exampleEnv looseStore exampleCache 1801000 1801005
          ⟨"chunks", "game.data.manifest.json"⟩).fileCache
          ⟨"chunks", "game.data.manifest.json"⟩ =
        some { buffer := [1, 2, 3], timestamp := 1801005 }) :=
  ⟨(getCachedFile_cache_through exampleEnv looseStore exampleCache 2000 2000
      ⟨"chunks", "game.data.manifest.json"⟩).2.1 { buffer := [1, 2, 3], timestamp := 1000 } rfl
      (by decide),
    ((getCachedFile_cache_through exampleEnv looseStore exampleCache 1801000 1801005
      ⟨"chunks", "game.data.manifest.json"⟩).2.2
        (Or.inr ⟨{ buffer := [1, 2, 3], timestamp := 1000 }, rfl, by decide⟩)).1,
    (((getCachedFile_cache_through exampleEnv looseStore exampleCache 1801000 1801005
      ⟨"chunks", "game.data.manifest.json"⟩).2.2
        (Or.inr ⟨{ buffer := [1, 2, 3], timestamp := 1000 }, rfl, by decide⟩)).2
          [1, 2, 3] rfl).1,
    (((getCachedFile_cache_through exampleEnv looseStore exampleCache 1801000 1801005
      ⟨"chunks", "game.data.manifest.json"⟩).2.2
        (Or.inr ⟨{ buffer := [1, 2, 3], timestamp := 1000 }, rfl, by decide⟩)).2
          [1, 2, 3] rfl).2.1⟩

/-- C8 (no unverified buffer is cached).  When `getCachedFile` has to reassemble and
`combineChunks` fails, the error is the result of `getCachedFile` and the cache map is exactly as it
was.  And whatever happens, an entry of the map after the call is either the entry the map held
before or is the entry for `manifestPath` holding the buffer `combineChunks` has just returned, so
a buffer whose digest is the `hash` of the manifest read in that call. -/
theorem getCachedFile_caches_verified_only (E : Env) (fs : FS) (fileCache : FileCache)
    (tLookup tStore : Int) (manifestPath : Path) :
    (∀ e, (fileCache manifestPath = none ∨ ∃ cached, fileCache manifestPath = some cached ∧
        CACHE_TIMEOUT ≤ tLookup - cached.timestamp) →
      combineChunks E fs manifestPath = .error e →
        (getCachedFile E fs fileCache tLookup tStore manifestPath).result = .error e ∧
        (getCachedFile E fs fileCache tLookup tStore manifestPath).fileCache = fileCache) ∧
    (∀ q entry,
      (getCachedFile E fs fileCache tLookup tStore manifestPath).fileCache q = some entry →
        fileCache q = some entry ∨
        (q = manifestPath ∧ entry.timestamp = tStore ∧
          combineChunks E fs manifestPath = .ok entry.buffer ∧
          ∃ manifest, readJson E fs manifestPath = .ok manifest ∧
            manifest.hash = some (E.sha256hex entry.buffer) ∧
            manifest.originalSize = some (entry.buffer.length : Int))) := by
  have hcases : (∃ cached, fileCache manifestPath = some cached ∧
      tLookup - cached.timestamp < CACHE_TIMEOUT) ∨
      (fileCache manifestPath = none ∨ ∃ cached, fileCache manifestPath = some cached ∧
        ¬ tLookup - cached.timestamp < CACHE_TIMEOUT) := by
    cases h : fileCache manifestPath with
    | none => exact Or.inr (Or.inl rfl)
    | some cached =>
      by_cases hf : tLookup - cached.timestamp < CACHE_TIMEOUT
      · exact Or.inl ⟨cached, rfl, hf⟩
      · exact Or.inr (Or.inr ⟨cached, rfl, hf⟩)
  refine ⟨?_, ?_⟩
  · intro e hmiss hfail
    have hmiss2 : fileCache manifestPath = none ∨ ∃ cached,
        fileCache manifestPath = some cached ∧ ¬ tLookup - cached.timestamp < CACHE_TIMEOUT := by
      rcases hmiss with h | ⟨cached, h, hold⟩
      · exact Or.inl h
      · exact Or.inr ⟨cached, h, by omega⟩
    rw [getCachedFile_miss hmiss2, hfail]
    exact ⟨rfl, rfl⟩
  · intro q entry hq
    rcases hcases with ⟨cached, hc, hfresh⟩ | hmiss
    · rw [getCachedFile_hit hc hfresh] at hq
      exact Or.inl hq
    · rw [getCachedFile_miss hmiss] at hq
      cases hcomb : combineChunks E fs manifestPath with
      | error e =>
        rw [hcomb] at hq
        exact Or.inl hq
      | ok buffer =>
        rw [hcomb] at hq
        change (FileCache.set _ _ _) _ = _ at hq
        unfold FileCache.set at hq
        by_cases hqp : q = manifestPath
        · rw [if_pos hqp] at hq
          have he := Option.some.inj hq
          subst he
          obtain ⟨m, hm, ha, hh⟩ := combineChunks_ok_inv hcomb
          exact Or.inr ⟨hqp, rfl, rfl, m, hm, hh, assemble_length ha⟩
        · rw [if_neg hqp] at hq
          exact Or.inl hq

theorem getCachedFile_caches_verified_only_example :
    (getCachedFile exampleEnv brokenStore exampleCache 1801000 1801005
        ⟨"chunks", "game.data.manifest.json"⟩).result = .error .HashMismatch ∧
    (getCachedFile exampleEnv brokenStore exampleCache 1801000 1801005
        ⟨"chunks", "game.data.manifest.json"⟩).fileCache = exampleCache :=
  (getCachedFile_caches_verified_only exampleEnv brokenStore exampleCache 1801000 1801005
    ⟨"chunks", "game.data.manifest.json"⟩).1 .HashMismatch
    (Or.inr ⟨{ buffer := [1, 2, 3], timestamp := 1000 }, rfl, by decide⟩) rfl

/-! ## The chunked-file middleware -/

theorem chunkedMiddleware_absent {E : Env} {fs : FS} {fileCache : FileCache}
    {tLookup tStore : Int} {chunksDir : String} {req : Request}
    (hex : existsSync fs (pathJoin chunksDir (manifestFileName req.baseName)) = false) :
    chunkedMiddleware E fs fileCache tLookup tStore chunksDir req = (passThrough, fileCache) := by
  unfold chunkedMiddleware
  simp only [hex, Bool.false_eq_true, if_false]

theorem chunkedMiddleware_error {E : Env} {fs : FS} {fileCache : FileCache}
    {tLookup tStore : Int} {chunksDir : String} {req : Request} {e : JsErr}
    (hex : existsSync fs (pathJoin chunksDir (manifestFileName req.baseName)) = true)
    (hres : (getCachedFile E fs fileCache tLookup tStore
      (pathJoin chunksDir (manifestFileName req.baseName))).result = .error e) :
    (chunkedMiddleware E fs fileCache tLookup tStore chunksDir req).1 = passThrough := by
  unfold chunkedMiddleware
  simp only [hex, if_true, hres]

theorem chunkedMiddleware_unparsable {E : Env} {fs : FS} {fileCache : FileCache}
    {tLookup tStore : Int} {chunksDir : String} {req : Request} {buffer : Buffer} {e : JsErr}
    (hex : existsSync fs (pathJoin chunksDir (manifestFileName req.baseName)) = true)
    (hres : (getCachedFile E fs fileCache tLookup tStore
      (pathJoin chunksDir (manifestFileName req.baseName))).result = .ok buffer)
    (hj : parseJson E fs (pathJoin chunksDir (manifestFileName req.baseName)) = .error e) :
    (chunkedMiddleware E fs fileCache tLookup tStore chunksDir req).1 = passThrough := by
  unfold chunkedMiddleware
  simp only [hex, if_true, hres, hj]

theorem chunkedMiddleware_null {E : Env} {fs : FS} {fileCache : FileCache}
    {tLookup tStore : Int} {chunksDir : String} {req : Request} {buffer : Buffer}
    (hex : existsSync fs (pathJoin chunksDir (manifestFileName req.baseName)) = true)
    (hres : (getCachedFile E fs fileCache tLookup tStore
      (pathJoin chunksDir (manifestFileName req.baseName))).result = .ok buffer)
    (hj : parseJson E fs (pathJoin chunksDir (manifestFileName req.baseName)) = .ok .null) :
    (chunkedMiddleware E fs fileCache tLookup tStore chunksDir req).1 =
      { contentType := contentTypeFor req.filePath, body := none, nextCalled := true } := by
  unfold chunkedMiddleware
  simp only [hex, if_true, hres, hj]

theorem chunkedMiddleware_send {E : Env} {fs : FS} {fileCache : FileCache}
    {tLookup tStore : Int} {chunksDir : String} {req : Request} {buffer : Buffer}
    {m : ManifestJson}
    (hex : existsSync fs (pathJoin chunksDir (manifestFileName req.baseName)) = true)
    (hres : (getCachedFile E fs fileCache tLookup tStore
      (pathJoin chunksDir (manifestFileName req.baseName))).result = .ok buffer)
    (hj : parseJson E fs (pathJoin chunksDir (manifestFileName req.baseName)) =
      .ok (.object m)) :
    (chunkedMiddleware E fs fileCache tLookup tStore chunksDir req).1 =
      { contentType := contentTypeFor req.filePath, body := some buffer,
        nextCalled := false } := by
  unfold chunkedMiddleware
  simp only [hex, if_true, hres, hj]

/-- C9 (delivery handler fallback).  The middleware looks for the manifest at
`chunks/<basename>.manifest.json`.  Without one it calls `next()` and sets no header and sends no
body.  With one, when `getCachedFile` fails it sets no header, sends no body and calls `next()`.
It sends a body only when the manifest exists and `getCachedFile` returned the buffer: the body is
that whole buffer, `next()` is not called, and the content type is `application/wasm` for a path
ending in `.wasm` and `application/octet-stream` for one ending in `.data`; and it does send it
when, besides, the manifest file parses to a value other than `null`.  The middleware itself
never throws.  It always ends in one of three ways: `next()` with nothing set, the body sent, or,
only when the buffer was obtained while the manifest file parses to `null`, `next()` with no body
after the content type was set. -/
theorem chunkedMiddleware_fallback (E : Env) (fs : FS) (fileCache : FileCache)
    (tLookup tStore : Int) (chunksDir : String) (req : Request) :
    (existsSync fs (pathJoin chunksDir (req.baseName ++ ".manifest.json")) = false →
      chunkedMiddleware E fs fileCache tLookup tStore chunksDir req =
        ({ contentType := none, body := none, nextCalled := true }, fileCache)) ∧
    (∀ e, existsSync fs (pathJoin chunksDir (req.baseName ++ ".manifest.json")) = true →
      (getCachedFile E fs fileCache tLookup tStore
        (pathJoin chunksDir (req.baseName ++ ".manifest.json"))).result = .error e →
      (chunkedMiddleware E fs fileCache tLookup tStore chunksDir req).1 =
        { contentType := none, body := none, nextCalled := true }) ∧
    (∀ buffer, (chunkedMiddleware E fs fileCache tLookup tStore chunksDir req).1.body =
        some buffer →
      existsSync fs (pathJoin chunksDir (req.baseName ++ ".manifest.json")) = true ∧
      (getCachedFile E fs fileCache tLookup tStore
        (pathJoin chunksDir (req.baseName ++ ".manifest.json"))).result = .ok buffer ∧
      (chunkedMiddleware E fs fileCache tLookup tStore chunksDir req).1.nextCalled = false ∧
      (chunkedMiddleware E fs fileCache tLookup tStore chunksDir req).1.contentType =
        contentTypeFor req.filePath ∧
      (endsWith req.filePath ".wasm" = true →
        contentTypeFor req.filePath = some "application/wasm") ∧
      (endsWith req.filePath ".wasm" = false → endsWith req.filePath ".data" = true →
        contentTypeFor req.filePath = some "application/octet-stream")) ∧
    (∀ buffer m, existsSync fs (pathJoin chunksDir (req.baseName ++ ".manifest.json")) = true →
      (getCachedFile E fs fileCache tLookup tStore
        (pathJoin chunksDir (req.baseName ++ ".manifest.json"))).result = .ok buffer →
      parseJson E fs (pathJoin chunksDir (req.baseName ++ ".manifest.json")) =
        .ok (.object m) →
      (chunkedMiddleware E fs fileCache tLookup tStore chunksDir req).1 =
        { contentType := contentTypeFor req.filePath, body := some buffer,
          nextCalled := false }) ∧
    ((chunkedMiddleware E fs fileCache tLookup tStore chunksDir req).1 =
        { contentType := none, body := none, nextCalled := true } ∨
      (∃ buffer, (chunkedMiddleware E fs fileCache tLookup tStore chunksDir req).1 =
        { contentType := contentTypeFor req.filePath, body := some buffer,
          nextCalled := false }) ∨
      ((chunkedMiddleware E fs fileCache tLookup tStore chunksDir req).1 =
          { contentType := contentTypeFor req.filePath, body := none, nextCalled := true } ∧
        existsSync fs (pathJoin chunksDir (req.baseName ++ ".manifest.json")) = true ∧
        (∃ buffer, (getCachedFile E fs fileCache tLookup tStore
          (pathJoin chunksDir (req.baseName ++ ".manifest.json"))).result = .ok buffer) ∧
        parseJson E fs (pathJoin chunksDir (req.baseName ++ ".manifest.json")) =
          .ok .null)) := by
  have hname : req.baseName ++ ".manifest.json" = manifestFileName req.baseName := rfl
  have hnone : ∀ b : Buffer, passThrough.body ≠ some b := fun b hb => by cases hb
  rw [hname]
  cases hex : existsSync fs (pathJoin chunksDir (manifestFileName req.baseName)) with
  | false =>
    have h := @chunkedMiddleware_absent E fs fileCache tLookup tStore chunksDir req hex
    rw [h]
    refine ⟨fun _ => rfl, ?_, ?_, ?_, Or.inl rfl⟩
    · intro e hc
      cases hc
    · intro b hb
      exact absurd hb (hnone b)
    · intro b m hc
      cases hc
  | true =>
    cases hres : (getCachedFile E fs fileCache tLookup tStore
        (pathJoin chunksDir (manifestFileName req.baseName))).result with
    | error e =>
      have h := chunkedMiddleware_error hex hres
      rw [h]
      refine ⟨?_, fun _ _ _ => rfl, ?_, ?_, Or.inl rfl⟩
      · intro hc
        cases hc
      · intro b hb
        exact absurd hb (hnone b)
      · intro b m _ hc
        cases hc
    | ok buffer =>
      cases hj : parseJson E fs (pathJoin chunksDir (manifestFileName req.baseName)) with
      | error e =>
        have h := chunkedMiddleware_unparsable hex hres hj
        rw [h]
        refine ⟨?_, ?_, ?_, ?_, Or.inl rfl⟩
        · intro hc
          cases hc
        · intro e2 _ hc
          cases hc
        · intro b hb
          exact absurd hb (hnone b)
        · intro b m _ _ hc
          cases hc
      | ok v =>
        cases v with
        | null =>
          have h := chunkedMiddleware_null hex hres hj
          rw [h]
          refine ⟨?_, ?_, ?_, ?_, Or.inr (Or.inr ⟨rfl, rfl, ⟨buffer, rfl⟩, rfl⟩)⟩
          · intro hc
            cases hc
          · intro e2 _ hc
            cases hc
          · intro b hb
            cases hb
          · intro b m _ _ hc
            cases hc
        | object m =>
          have h := chunkedMiddleware_send hex hres hj
          rw [h]
          refine ⟨?_, ?_, ?_, ?_, Or.inr (Or.inl ⟨buffer, rfl⟩)⟩
          · intro hc
            cases hc
          · intro e2 _ hc
            cases hc
          · intro b hb
            have hbb : buffer = b := Option.some.inj hb
            subst hbb
            refine ⟨rfl, rfl, rfl, rfl, ?_, ?_⟩
            · intro hw
              unfold contentTypeFor
              rw [if_pos hw]
            · intro hw hd
              unfold contentTypeFor
              rw [if_neg (by rw [hw]; exact Bool.false_ne_true), if_pos hd]
          · intro b m2 _ hb _
            have hbb : buffer = b := Except.ok.inj hb
            subst hbb
            rfl

theorem chunkedMiddleware_fallback_example :
    chunkedMiddleware exampleEnv exampleFS exampleCache 0 0 "chunks"
        ⟨"public/game.data", "game.data"⟩ =
      ({ contentType := none, body := none, nextCalled := true }, exampleCache) ∧
    (chunkedMiddleware exampleEnv brokenStore (fun _ => none) 0 0 "chunks"
        ⟨"public/game.data", "game.data"⟩).1 =
      { contentType := none, body := none, nextCalled := true } ∧
    (chunkedMiddleware exampleEnv looseStore (fun _ => none) 0 0 "chunks"
        ⟨"public/game.data", "game.data"⟩).1.nextCalled = false ∧
    (chunkedMiddleware exampleEnv looseStore (fun _ => none) 0 0 "chunks"
        ⟨"public/game.data", "game.data"⟩).1.contentType = some "application/octet-stream" ∧
    (chunkedMiddleware exampleEnv looseStore (fun _ => none) 0 0 "chunks"
        ⟨"public/game.data", "game.data"⟩).1 =
      { contentType := contentTypeFor "public/game.data", body := some [1, 2, 3],
        nextCalled := false } :=
  ⟨(chunkedMiddleware_fallback exampleEnv exampleFS exampleCache 0 0 "chunks"
      ⟨"public/game.data", "game.data"⟩).1 rfl,
    (chunkedMiddleware_fallback exampleEnv brokenStore (fun _ => none) 0 0 "chunks"
      ⟨"public/game.data", "game.data"⟩).2.1 .HashMismatch rfl rfl,
    ((chunkedMiddleware_fallback exampleEnv looseStore (fun _ => none) 0 0 "chunks"
      ⟨"public/game.data", "game.data"⟩).2.2.1 [1, 2, 3] rfl).2.2.1,
    ((chunkedMiddleware_fallback exampleEnv looseStore (fun _ => none) 0 0 "chunks"
      ⟨"public/game.data", "game.data"⟩).2.2.1 [1, 2, 3] rfl).2.2.2.1.trans
      (((chunkedMiddleware_fallback exampleEnv looseStore (fun _ => none) 0 0 "chunks"
        ⟨"public/game.data", "game.data"⟩).2.2.1 [1, 2, 3] rfl).2.2.2.2.2 (by decide)
        (by decide)),
    (chunkedMiddleware_fallback exampleEnv looseStore (fun _ => none) 0 0 "chunks"
      ⟨"public/game.data", "game.data"⟩).2.2.2.1 [1, 2, 3] looseManifest rfl rfl rfl⟩

/-- On a cache hit while the manifest file holds `null`, the middleware sets the content type,
sends no body and calls `next()`. -/
theorem chunkedMiddleware_null_manifest :
    (chunkedMiddleware exampleEnv nullStore exampleCache 2000 2000 "chunks"
        ⟨"public/game.data", "game.data"⟩).1 =
      { contentType := some "application/octet-stream", body := none, nextCalled := true } := by
  have h := @chunkedMiddleware_null exampleEnv nullStore exampleCache 2000 2000 "chunks"
    ⟨"public/game.data", "game.data"⟩ [1, 2, 3] rfl rfl rfl
  rw [h]
  rfl

/-! ## The manifest is written last -/

theorem splitFile_unreadable {E : Env} {fs : FS} {filePath : Path} (chunksDir : Option String)
    (h : fs filePath = none) : splitFile E fs filePath chunksDir = (.error .ENOENT, fs) := by
  unfold splitFile statSize
  rw [h]

/-- C10 (manifest written last).  `splitFile` writes every chunk file before the manifest file.
Whenever it fails, the location `<chunksDir>/<fileName>.manifest.json` holds what it held before
the call, so no manifest was written: in particular when the source file cannot be read (nothing is
written at all) and when the write of any one chunk file fails.  Whenever it succeeds, the manifest
file holds the returned manifest and the chunk file of every descriptor in it was written, holding
the bytes of its window. -/
theorem splitFile_manifest_last (E : Env) (fs : FS) (filePath : Path)
    (chunksDir : Option String) :
    (∀ e, (splitFile E fs filePath chunksDir).1 = .error e →
      (splitFile E fs filePath chunksDir).2
          (pathJoin (effectiveChunksDir filePath chunksDir) (manifestFileName filePath.base)) =
        fs (pathJoin (effectiveChunksDir filePath chunksDir) (manifestFileName filePath.base))) ∧
    (fs filePath = none → splitFile E fs filePath chunksDir = (.error .ENOENT, fs)) ∧
    (∀ d j, fs filePath = some d → j ∈ offsetsFrom (E.bytes d).length 0 →
      E.canWrite (chunkPathAt filePath.base (effectiveChunksDir filePath chunksDir)
        (E.bytes d) j) = false →
      (splitFile E fs filePath chunksDir).1 = .error .EWRITE) ∧
    (∀ m, (splitFile E fs filePath chunksDir).1 = .ok m →
      (splitFile E fs filePath chunksDir).2
          (pathJoin (effectiveChunksDir filePath chunksDir) (manifestFileName filePath.base)) =
        some (.json m.toJson) ∧
      ∃ d, fs filePath = some d ∧ ∀ c ∈ m.chunks,
        (splitFile E fs filePath chunksDir).2
            (pathJoin (effectiveChunksDir filePath chunksDir) c.path) =
          some (.raw (window (E.bytes d) c.start))) := by
  have hmp : pathJoin (effectiveChunksDir filePath chunksDir) (manifestFileName filePath.base) =
      manifestPathOf (effectiveChunksDir filePath chunksDir) filePath.base := rfl
  rw [hmp]
  cases hsrc : fs filePath with
  | none =>
    rw [splitFile_unreadable chunksDir hsrc]
    refine ⟨fun _ _ => rfl, fun _ => rfl, ?_, ?_⟩
    · intro d j hd
      cases hd
    · intro m hm
      cases hm
  | some d =>
    rw [splitFile_spec E fs filePath chunksDir d hsrc]
    have hother : ∀ l : List Nat, (l.foldl (writeWindow filePath.base
        (effectiveChunksDir filePath chunksDir) (E.bytes d)) fs)
        (manifestPathOf (effectiveChunksDir filePath chunksDir) filePath.base) =
        fs (manifestPathOf (effectiveChunksDir filePath chunksDir) filePath.base) :=
      fun l => foldl_writeWindow_other _ _ _ _ l fs
        (fun j _ => Ne.symm (chunkPathAt_ne_manifest _ _ _ j))
    by_cases hall : (offsetsFrom (E.bytes d).length 0).all (fun j => E.canWrite
        (chunkPathAt filePath.base (effectiveChunksDir filePath chunksDir) (E.bytes d) j)) = true
    · rw [if_pos hall]
      by_cases hm : E.canWrite (manifestPathOf (effectiveChunksDir filePath chunksDir)
          filePath.base) = true
      · rw [if_pos hm]
        refine ⟨?_, ?_, ?_, ?_⟩
        · intro e he
          cases he
        · intro hc
          cases hc
        · intro d2 j hd hj hw
          have hd2 : d = d2 := Option.some.inj hd
          subst hd2
          rw [List.all_eq_true] at hall
          have := hall j hj
          rw [hw] at this
          cases this
        · intro m hmeq
          have hm2 : manifestOf E filePath.base (E.bytes d) = m := Except.ok.inj hmeq
          subst hm2
          refine ⟨FS.set_same _ _ _, d, rfl, ?_⟩
          intro c hc
          obtain ⟨j, hj, hcj⟩ := mem_manifestOf_chunks hc
          subst hcj
          show (FS.set _ _ _) (chunkPathAt filePath.base (effectiveChunksDir filePath chunksDir)
            (E.bytes d) j) = some (.raw (window (E.bytes d) j))
          rw [FS.set_other _ _ (chunkPathAt_ne_manifest _ _ _ _)]
          exact foldl_writeWindow_mem _ _ _ _ _ _ hj
      · rw [if_neg hm]
        refine ⟨fun _ _ => hother _, ?_, fun _ _ _ _ _ => rfl, ?_⟩
        · intro hc
          cases hc
        · intro m hmeq
          cases hmeq
    · rw [if_neg hall]
      refine ⟨fun _ _ => hother _, ?_, fun _ _ _ _ _ => rfl, ?_⟩
      · intro hc
        cases hc
      · intro m hmeq
        cases hmeq

theorem splitFile_manifest_last_example :
    (splitFile readOnlyEnv exampleFS ⟨"public", "game.data"⟩ (some "chunks")).1 =
      .error .EWRITE ∧
    (splitFile readOnlyEnv exampleFS ⟨"public", "game.data"⟩ (some "chunks")).2
        (pathJoin "chunks" "game.data.manifest.json") = none :=
  ⟨(splitFile_manifest_last readOnlyEnv exampleFS ⟨"public", "game.data"⟩
      (some "chunks")).2.2.1 (.raw [1, 2, 3]) 0 rfl
      (by
        rw [show (readOnlyEnv.bytes (.raw [1, 2, 3])).length = 3 from rfl,
          offsetsFrom_step (by decide)]
        exact List.mem_cons_self _ _) rfl,
    (splitFile_manifest_last readOnlyEnv exampleFS ⟨"public", "game.data"⟩
      (some "chunks")).1 .EWRITE
      ((splitFile_manifest_last readOnlyEnv exampleFS ⟨"public", "game.data"⟩
        (some "chunks")).2.2.1 (.raw [1, 2, 3]) 0 rfl
        (by
          rw [show (readOnlyEnv.bytes (.raw [1, 2, 3])).length = 3 from rfl,
            offsetsFrom_step (by decide)]
          exact List.mem_cons_self _ _) rfl)⟩


/-! ## Manifests that are not well formed -/

theorem combineLoop_cons (E : Env) (fs : FS) (dir : String) (c : ChunkJson)
    (rest : List ChunkJson) (B : Buffer) :
    combineLoop E fs dir (c :: rest) B =
      match c.path with
      | none => .error .TypeError
      | some name =>
        match readFileSync E fs (pathJoin dir name) with
        | .error e => .error e
        | .ok chunkData =>
          match bufferCopy chunkData B c.start with
          | .error e => .error e
          | .ok buf => combineLoop E fs dir rest buf := by
  rw [combineLoop]

theorem bufferCopy_negative (source target : Buffer) {s : Int} (hs : s < 0) :
    bufferCopy source target (some s) = .error .RangeError := by
  unfold bufferCopy
  have h : (some s).getD 0 < 0 := hs
  rw [if_pos h]

theorem bufferCopy_getD (source target : Buffer) (ts : Option Int) :
    bufferCopy source target ts = bufferCopy source target (some (ts.getD 0)) := by
  unfold bufferCopy
  rfl

/-- The copy loop fails when a chunk has no `path` or a negative `start`. -/
theorem combineLoop_bad_chunk (E : Env) (fs : FS) (dir : String) :
    ∀ (chunks : List ChunkJson) (B b : Buffer),
      (∃ c ∈ chunks, c.path = none ∨ ∃ s, c.start = some s ∧ s < 0) →
      combineLoop E fs dir chunks B ≠ .ok b := by
  intro chunks
  induction chunks with
  | nil =>
    intro B b h
    obtain ⟨c, hc, _⟩ := h
    exact absurd hc (List.not_mem_nil _)
  | cons c rest ih =>
    intro B b h hok
    rw [combineLoop_cons] at hok
    cases hp : c.path with
    | none => rw [hp] at hok; cases hok
    | some name =>
      rw [hp] at hok
      dsimp only at hok
      cases hr : readFileSync E fs (pathJoin dir name) with
      | error e => rw [hr] at hok; cases hok
      | ok chunkData =>
        rw [hr] at hok
        dsimp only at hok
        cases hc : bufferCopy chunkData B c.start with
        | error e => rw [hc] at hok; cases hok
        | ok b1 =>
          rw [hc] at hok
          dsimp only at hok
          obtain ⟨x, hx, hbad⟩ := h
          rcases List.mem_cons.1 hx with hxc | hxr
          · subst hxc
            rcases hbad with hnp | ⟨s, hs, hneg⟩
            · rw [hp] at hnp
              cases hnp
            · rw [hs, bufferCopy_negative _ _ hneg] at hc
              cases hc
          · exact ih b1 b ⟨x, hxr, hbad⟩ hok

/-- The copy loop uses nothing of a chunk but its `path` and `start` (0 when absent). -/
theorem combineLoop_readFields (E : Env) (fs : FS) (dir : String) :
    ∀ (cs cs2 : List ChunkJson) (B : Buffer),
      cs.map ChunkJson.readFields = cs2.map ChunkJson.readFields →
      combineLoop E fs dir cs B = combineLoop E fs dir cs2 B := by
  intro cs
  induction cs with
  | nil =>
    intro cs2 B h
    cases cs2 with
    | nil => rfl
    | cons c2 rest2 => cases h
  | cons c rest ih =>
    intro cs2 B h
    cases cs2 with
    | nil => cases h
    | cons c2 rest2 =>
      rw [List.map_cons, List.map_cons] at h
      have hhead : c.readFields = c2.readFields := (List.cons.inj h).1
      have htail := (List.cons.inj h).2
      have hpath : c.path = c2.path := congrArg Prod.fst hhead
      have hstart : c.start.getD 0 = c2.start.getD 0 := congrArg Prod.snd hhead
      rw [combineLoop_cons, combineLoop_cons, hpath]
      cases c2.path with
      | none => rfl
      | some name =>
        dsimp only
        cases readFileSync E fs (pathJoin dir name) with
        | error e => rfl
        | ok chunkData =>
          dsimp only
          have hb : bufferCopy chunkData B c.start = bufferCopy chunkData B c2.start := by
            rw [bufferCopy_getD _ _ c.start, bufferCopy_getD _ _ c2.start, hstart]
          rw [hb]
          cases bufferCopy chunkData B c2.start with
          | error e => rfl
          | ok b1 =>
            dsimp only
            exact ih rest2 b1 htail

/-- What `combineChunks` assembles depends on the manifest only through `originalSize` and the
`path` and `start` (0 when absent) of each chunk. -/
theorem assemble_readFields (E : Env) (fs : FS) (dir : String) (m m2 : ManifestJson)
    (hsize : m2.originalSize = m.originalSize)
    (hchunks : m2.chunks.map (List.map ChunkJson.readFields) =
      m.chunks.map (List.map ChunkJson.readFields)) :
    assemble E fs dir m2 = assemble E fs dir m := by
  unfold assemble
  rw [hsize]
  cases bufferAlloc m.originalSize with
  | error e => rfl
  | ok B =>
    dsimp only
    cases h2 : m2.chunks with
    | none =>
      cases h1 : m.chunks with
      | none => rfl
      | some cs => rw [h1, h2] at hchunks; cases hchunks
    | some cs2 =>
      cases h1 : m.chunks with
      | none => rw [h1, h2] at hchunks; cases hchunks
      | some cs =>
        rw [h1, h2] at hchunks
        exact combineLoop_readFields E fs dir cs2 cs B (Option.some.inj hchunks)

theorem assemble_ok_inv {E : Env} {fs : FS} {dir : String} {m : ManifestJson} {b : Buffer}
    (h : assemble E fs dir m = .ok b) :
    ∃ chunks B, m.chunks = some chunks ∧ combineLoop E fs dir chunks B = .ok b := by
  unfold assemble at h
  cases ha : bufferAlloc m.originalSize with
  | error e => rw [ha] at h; cases h
  | ok B =>
    rw [ha] at h
    dsimp only at h
    cases hc : m.chunks with
    | none => rw [hc] at h; cases h
    | some chunks =>
      rw [hc] at h
      exact ⟨chunks, B, rfl, h⟩

theorem combineChunks_of_assemble_error {E : Env} {fs : FS} {p : Path} {m : ManifestJson}
    {e : JsErr} (h : readJson E fs p = .ok m) (h2 : assemble E fs p.dir m = .error e) :
    combineChunks E fs p = .error e := by
  unfold combineChunks
  rw [h]
  show (match assemble E fs p.dir m with
    | Except.error e => (Except.error e : Except JsErr Buffer)
    | Except.ok combinedBuffer =>
      if some (E.sha256hex combinedBuffer) ≠ m.hash then Except.error JsErr.HashMismatch
      else Except.ok combinedBuffer) = _
  rw [h2]

/-- C6, as the code has it.  `combineChunks` fails with an error for every parsed manifest that
lacks `originalSize`, `chunks`, `hash` or the `path` of one of its chunks, or in which
`originalSize` or the `start` of a chunk is negative.  It checks nothing else about the manifest.
What it assembles, a buffer or an error, is the same for any two manifests that agree on
`originalSize` and on the `path` and `start` (0 when absent) of each chunk, whatever their
`fileName`, chunk `size` and chunk `hash` are.  Its outcome is that error, or the hash-mismatch error when the digest of
the assembled buffer is not the `hash` of the manifest, or else the assembled buffer.  So every
buffer it returns has exactly `originalSize` bytes and the digest `hash`. -/
theorem combineChunks_manifest_checks (E : Env) (fs : FS) (manifestPath : Path)
    (manifest : ManifestJson) (hm : readJson E fs manifestPath = .ok manifest) :
    ((manifest.originalSize = none ∨ (∃ n, manifest.originalSize = some n ∧ n < 0) ∨
        manifest.chunks = none ∨ manifest.hash = none ∨
        ∃ c ∈ manifest.chunks.getD [], c.path = none ∨ ∃ s, c.start = some s ∧ s < 0) →
      ∃ e, combineChunks E fs manifestPath = .error e) ∧
    (∀ m2 : ManifestJson, m2.originalSize = manifest.originalSize →
      m2.chunks.map (List.map ChunkJson.readFields) =
        manifest.chunks.map (List.map ChunkJson.readFields) →
      assemble E fs manifestPath.dir m2 = assemble E fs manifestPath.dir manifest) ∧
    (∀ e, assemble E fs manifestPath.dir manifest = .error e →
      combineChunks E fs manifestPath = .error e) ∧
    (∀ b, assemble E fs manifestPath.dir manifest = .ok b →
      combineChunks E fs manifestPath =
        if some (E.sha256hex b) = manifest.hash then .ok b else .error .HashMismatch) ∧
    (∀ b, combineChunks E fs manifestPath = .ok b →
      manifest.originalSize = some (b.length : Int) ∧
      manifest.hash = some (E.sha256hex b)) := by
  have hinv : ∀ b, combineChunks E fs manifestPath = .ok b →
      assemble E fs manifestPath.dir manifest = .ok b ∧
        manifest.hash = some (E.sha256hex b) := by
    intro b hb
    obtain ⟨m2, hm2, ha, hh⟩ := combineChunks_ok_inv hb
    rw [hm] at hm2
    have hmm : manifest = m2 := Except.ok.inj hm2
    subst hmm
    exact ⟨ha, hh⟩
  refine ⟨?_, fun m2 h1 h2 => assemble_readFields E fs manifestPath.dir manifest m2 h1 h2,
    fun e he => combineChunks_of_assemble_error hm he, ?_,
    fun b hb => ⟨assemble_length (hinv b hb).1, (hinv b hb).2⟩⟩
  · intro hbad
    cases hres : combineChunks E fs manifestPath with
    | error e => exact ⟨e, rfl⟩
    | ok b =>
      exfalso
      obtain ⟨ha, hh⟩ := hinv b hres
      obtain ⟨chunks, B, hchunks, hloop⟩ := assemble_ok_inv ha
      have hlen := assemble_length ha
      rcases hbad with h1 | ⟨n, hn, hneg⟩ | h2 | h3 | ⟨c, hc, hcb⟩
      · rw [hlen] at h1; cases h1
      · rw [hlen] at hn
        have hnn : (b.length : Int) = n := Option.some.inj hn
        omega
      · rw [hchunks] at h2; cases h2
      · rw [hh] at h3; cases h3
      · rw [hchunks] at hc
        exact combineLoop_bad_chunk E fs manifestPath.dir chunks B b ⟨c, hc, hcb⟩ hloop
  · intro b hb
    rw [combineChunks_of_assemble hm hb]
    by_cases hh : some (E.sha256hex b) = manifest.hash
    · rw [if_neg (not_not.2 hh), if_pos hh]
    · rw [if_pos hh, if_neg hh]

theorem combineChunks_manifest_checks_example :
    (∃ e, combineChunks exampleEnv sizelessStore ⟨"chunks", "game.data.manifest.json"⟩ =
      .error e) ∧
    assemble exampleEnv looseStore "chunks" sparseManifest =
      assemble exampleEnv looseStore "chunks" looseManifest ∧
    combineChunks exampleEnv looseStore ⟨"chunks", "game.data.manifest.json"⟩ =
      (if some (exampleEnv.sha256hex [1, 2, 3]) = looseManifest.hash then .ok [1, 2, 3]
       else .error .HashMismatch) :=
  ⟨(combineChunks_manifest_checks exampleEnv sizelessStore
      ⟨"chunks", "game.data.manifest.json"⟩ sizelessManifest rfl).1 (Or.inl rfl),
    (combineChunks_manifest_checks exampleEnv looseStore
      ⟨"chunks", "game.data.manifest.json"⟩ looseManifest rfl).2.1 sparseManifest rfl rfl,
    (combineChunks_manifest_checks exampleEnv looseStore
      ⟨"chunks", "game.data.manifest.json"⟩ looseManifest rfl).2.2.2.1 [1, 2, 3] rfl⟩

/-- C6, counterexample.  `looseManifest` has every field but a chunk `size` of 999 for a file of 3
bytes, so its sizes do not sum to `originalSize` and its chunk ends beyond it; `sparseManifest`
lacks `fileName` and the `start`, `size` and `hash` of its chunk.  `combineChunks` returns the
buffer for both. -/
theorem combineChunks_accepts_malformed :
    (readJson exampleEnv looseStore ⟨"chunks", "game.data.manifest.json"⟩ = .ok looseManifest ∧
      some looseManifest.sizeSum ≠ looseManifest.originalSize ∧
      looseManifest.chunkOverrun = true ∧
      combineChunks exampleEnv looseStore ⟨"chunks", "game.data.manifest.json"⟩ =
        .ok [1, 2, 3]) ∧
    (readJson exampleEnv sparseStore ⟨"chunks", "game.data.manifest.json"⟩ = .ok sparseManifest ∧
      sparseManifest.missingField = true ∧
      combineChunks exampleEnv sparseStore ⟨"chunks", "game.data.manifest.json"⟩ =
        .ok [1, 2, 3]) :=
  ⟨⟨rfl, by decide, by decide, rfl⟩, ⟨rfl, by decide, rfl⟩⟩

end LfsBypasser
